import Mathlib

/-
Verification of the session-monitor daemon: a shallow embedding of the
session registry (watcher), the publish pipeline, and the PTY manager
(terminal bridge), with proofs of the behavioural properties stated in
the specification.

Conventions of the embedding:
* JavaScript `Map`s are modelled as association lists (`List (String × β)`)
  in insertion order; `Map.get`/`Map.set`/`Map.delete` become `lookupKey`,
  `setKey`, `eraseKey`.
* Timestamps are epoch milliseconds as `Nat`.
* Log entries are opaque to the registry (it only concatenates lists of
  them and hands them to the parser/status helpers), so they are modelled
  as an abstract payload type.
* The parser and status modules (`parser.ts`, `status.ts`, `git.ts`) are
  not part of the provided sources; the watcher embedding is parameterised
  over them through `WatcherEnv`, except for `statusChanged`, which is
  modelled from the spec where a claim depends on its meaning.
-/

namespace SessionMonitor

/-- Session activity status, the `status` field of the derived status
tuple (`"working" | "waiting" | "idle"` in the source). -/
inductive SessionStatus where
  | working
  | waiting
  | idle
deriving DecidableEq, Repr

/-- The derived status tuple (`StatusResult` in `types.ts` per the spec
data model §3): status, pending tool-use flag, pending tool, message
count and last-activity timestamp. -/
structure StatusResult where
  status : SessionStatus
  hasPendingToolUse : Bool
  pendingTool : Option String
  messageCount : Nat
  lastActivityAt : Nat
deriving DecidableEq, Repr

/-- Log entries are opaque to the registry: the watcher only appends
batches of them and passes them to the (parameterised) helpers. -/
abbrev LogEntry := String

/-- Session metadata extracted from the log (`SessionMetadata`). -/
structure SessionMetadata where
  sessionId : String
  cwd : String
  gitBranch : Option String
  originalPrompt : String
  startedAt : String
deriving DecidableEq, Repr

/-- Cached git information (`GitInfo` in `git.ts`). -/
structure GitInfo where
  repoUrl : Option String
  repoId : Option String
  branch : Option String
  isGitRepo : Bool
deriving DecidableEq, Repr

/-- A session record held by the registry (`SessionState` in
`watcher.ts`). -/
structure SessionState where
  sessionId : String
  hostname : String
  filepath : String
  encodedDir : String
  cwd : String
  gitBranch : Option String
  originalPrompt : String
  startedAt : String
  status : StatusResult
  entries : List LogEntry
  bytePosition : Nat
  gitRepoUrl : Option String
  gitRepoId : Option String
deriving DecidableEq, Repr

/-- A registry event (`SessionEvent` in `watcher.ts`): `created`,
`updated` (with the previous status) or `deleted`. -/
inductive SessionEvent where
  | created (session : SessionState)
  | updated (session : SessionState) (previousStatus : Option StatusResult)
  | deleted (session : SessionState)
deriving DecidableEq, Repr

/-- The session carried by an event. -/
def SessionEvent.session : SessionEvent → SessionState
  | .created s => s
  | .updated s _ => s
  | .deleted s => s

/-- Whether an event is a deletion. -/
def SessionEvent.isDeleted : SessionEvent → Bool
  | .deleted _ => true
  | _ => false

/-! ### Association-list maps (the embedding of JavaScript `Map`s) -/

/-- `Map.get`: first value stored under a key. -/
def lookupKey {β : Type} : List (String × β) → String → Option β
  | [], _ => none
  | (k, v) :: rest, key => if k = key then some v else lookupKey rest key

/-- `Map.delete`: remove the entry stored under a key. -/
def eraseKey {β : Type} (m : List (String × β)) (key : String) : List (String × β) :=
  m.filter (fun p => p.1 ≠ key)

/-- `Map.set`: replace in place when the key is present, append
otherwise (JavaScript `Map`s keep insertion order). -/
def setKey {β : Type} (m : List (String × β)) (key : String) (v : β) : List (String × β) :=
  if m.any (fun p => p.1 == key) then
    m.map (fun p => if p.1 = key then (key, v) else p)
  else
    m ++ [(key, v)]

/-- The keys of a map, in order. -/
def mapKeys {β : Type} (m : List (String × β)) : List String :=
  m.map Prod.fst

theorem mem_mapKeys {β : Type} {m : List (String × β)} {k : String} :
    k ∈ mapKeys m ↔ ∃ v, (k, v) ∈ m := by
  constructor
  · intro h
    simp only [mapKeys, List.mem_map] at h
    obtain ⟨⟨a, b⟩, hm, hk⟩ := h
    exact ⟨b, by simpa [← hk] using hm⟩
  · rintro ⟨v, hv⟩
    unfold mapKeys
    exact List.mem_map.mpr ⟨(k, v), hv, rfl⟩

theorem mapKeys_cons {β : Type} (p : String × β) (m : List (String × β)) :
    mapKeys (p :: m) = p.1 :: mapKeys m := rfl

theorem lookupKey_mem {β : Type} {m : List (String × β)} {k : String} {v : β}
    (h : lookupKey m k = some v) : (k, v) ∈ m := by
  induction m with
  | nil => simp [lookupKey] at h
  | cons p rest ih =>
    obtain ⟨k', v'⟩ := p
    by_cases hk : k' = k
    · subst hk
      rw [lookupKey, if_pos rfl, Option.some_inj] at h
      subst h
      exact List.mem_cons_self _ _
    · rw [lookupKey, if_neg hk] at h
      exact List.mem_cons_of_mem _ (ih h)

theorem lookupKey_eq_none_iff {β : Type} {m : List (String × β)} {k : String} :
    lookupKey m k = none ↔ k ∉ mapKeys m := by
  induction m with
  | nil => simp [lookupKey, mapKeys]
  | cons p rest ih =>
    obtain ⟨k', v'⟩ := p
    by_cases hk : k' = k
    · subst hk
      rw [lookupKey, if_pos rfl]
      simp [mapKeys_cons]
    · rw [lookupKey, if_neg hk, ih, mapKeys_cons]
      simp only [List.mem_cons, not_or]
      constructor
      · intro h
        exact ⟨fun he => hk he.symm, h⟩
      · intro h
        exact h.2

theorem mem_lookupKey {β : Type} {m : List (String × β)} {k : String} {v : β}
    (hmem : (k, v) ∈ m) (hnd : (mapKeys m).Nodup) : lookupKey m k = some v := by
  induction m with
  | nil => simp at hmem
  | cons p rest ih =>
    obtain ⟨k', v'⟩ := p
    rw [mapKeys_cons, List.nodup_cons] at hnd
    rcases List.mem_cons.mp hmem with h | h
    · injection h with h1 h2
      subst h1
      subst h2
      rw [lookupKey, if_pos rfl]
    · have hk : k' ≠ k := by
        intro he
        apply hnd.1
        rw [he]
        exact mem_mapKeys.mpr ⟨v, h⟩
      rw [lookupKey, if_neg hk]
      exact ih h hnd.2

theorem eraseKey_not_mem_keys {β : Type} (m : List (String × β)) (k : String) :
    k ∉ mapKeys (eraseKey m k) := by
  intro h
  simp [mapKeys, eraseKey] at h

theorem mem_eraseKey_of_ne {β : Type} {m : List (String × β)} {p : String × β} {k : String}
    (hmem : p ∈ m) (hne : p.1 ≠ k) : p ∈ eraseKey m k := by
  simp [eraseKey]
  exact ⟨hmem, hne⟩

theorem eraseKey_subset {β : Type} (m : List (String × β)) (k : String) :
    ∀ p ∈ eraseKey m k, p ∈ m := by
  intro p hp
  simp [eraseKey] at hp
  exact hp.1

theorem eraseKey_sublist {β : Type} (m : List (String × β)) (k : String) :
    (eraseKey m k).Sublist m :=
  List.filter_sublist m

theorem eraseKey_keys_nodup {β : Type} {m : List (String × β)} (k : String)
    (hnd : (mapKeys m).Nodup) : (mapKeys (eraseKey m k)).Nodup :=
  hnd.sublist ((eraseKey_sublist m k).map Prod.fst)

theorem lookupKey_replace {β : Type} (key : String) (v : β) :
    ∀ m : List (String × β), (∃ p ∈ m, p.1 = key) →
      lookupKey (m.map (fun p => if p.1 = key then (key, v) else p)) key = some v := by
  intro m
  induction m with
  | nil =>
    intro h
    simp at h
  | cons p rest ih =>
    intro h
    obtain ⟨k', v'⟩ := p
    by_cases hk : k' = key
    · subst hk
      rw [List.map_cons,
        show (if (k', v').1 = k' then (k', v) else (k', v')) = (k', v) by simp,
        lookupKey, if_pos rfl]
    · have hrest : ∃ q ∈ rest, q.1 = key := by
        rcases h with ⟨q, hq, hqk⟩
        rcases List.mem_cons.mp hq with rfl | hq'
        · exact absurd hqk hk
        · exact ⟨q, hq', hqk⟩
      rw [List.map_cons,
        show (if (k', v').1 = key then (key, v) else (k', v')) = (k', v') by simp [hk],
        lookupKey, if_neg hk]
      exact ih hrest

theorem lookupKey_append_single {β : Type} (key : String) (v : β) :
    ∀ m : List (String × β), key ∉ mapKeys m →
      lookupKey (m ++ [(key, v)]) key = some v := by
  intro m
  induction m with
  | nil =>
    intro _
    simp [lookupKey]
  | cons p rest ih =>
    intro h
    obtain ⟨k', v'⟩ := p
    rw [mapKeys_cons, List.mem_cons, not_or] at h
    have hk : k' ≠ key := fun he => h.1 he.symm
    rw [List.cons_append, lookupKey, if_neg hk]
    exact ih h.2

theorem lookupKey_setKey_self {β : Type} (m : List (String × β)) (key : String) (v : β) :
    lookupKey (setKey m key v) key = some v := by
  unfold setKey
  by_cases h : m.any (fun p => p.1 == key) = true
  · rw [if_pos h]
    apply lookupKey_replace
    simpa using h
  · rw [if_neg h]
    apply lookupKey_append_single
    intro hk
    apply h
    obtain ⟨v', hv'⟩ := mem_mapKeys.mp hk
    simp only [List.any_eq_true, beq_iff_eq]
    exact ⟨(key, v'), hv', rfl⟩

theorem setKey_eq_append {β : Type} {m : List (String × β)} {key : String} (v : β)
    (h : key ∉ mapKeys m) : setKey m key v = m ++ [(key, v)] := by
  unfold setKey
  have hany : ¬ (m.any (fun p => p.1 == key) = true) := by
    simp only [List.any_eq_true, beq_iff_eq]
    rintro ⟨⟨pk, pv⟩, hp, he⟩
    dsimp at he
    subst he
    exact h (mem_mapKeys.mpr ⟨pv, hp⟩)
  rw [if_neg hany]

/-! ### Session registry (`SessionWatcher` in `watcher.ts`) -/

/-- The in-memory session registry (`private sessions = new Map<string,
SessionState>()`). -/
abbrev Registry := List (String × SessionState)

/-- Modelled from the spec: `statusChanged` lives in the status module,
which is not among the provided sources; per the specification a session
is `updated` "if status changed", where the status is the derived status
tuple, and a session with no previous status counts as changed. -/
def statusChanged (previous : Option StatusResult) (next : StatusResult) : Bool :=
  match previous with
  | none => true
  | some p => decide (p ≠ next)

/-- The condition of `removeSupersededSessions`' collection loop: another
entry is superseded when it is not the new session itself, lives on the
same host, has the same cwd and its status is `idle`. -/
def supersededBy (newSession : SessionState) (sessionId : String) (session : SessionState) : Bool :=
  decide (sessionId ≠ newSession.sessionId ∧ session.hostname = newSession.hostname ∧
    session.cwd = newSession.cwd ∧ session.status.status = SessionStatus.idle)

/-- The removal loop of `removeSupersededSessions`: for each collected id,
look it up, delete it from the registry and emit a `deleted` event. -/
def removeLoop : List String → Registry → List SessionEvent → Registry × List SessionEvent
  | [], sessions, events => (sessions, events)
  | sessionId :: rest, sessions, events =>
    match lookupKey sessions sessionId with
    | some session =>
      removeLoop rest (eraseKey sessions sessionId) (events ++ [SessionEvent.deleted session])
    | none => removeLoop rest sessions events

/-- `SessionWatcher.removeSupersededSessions`: collect every other
same-host same-cwd idle session, then delete each and emit `deleted`. -/
def removeSupersededSessions (sessions : Registry) (newSession : SessionState) :
    Registry × List SessionEvent :=
  let toRemove := (sessions.filter (fun p => supersededBy newSession p.1 p.2)).map Prod.fst
  removeLoop toRemove sessions []

/-- The helpers `handleFile` delegates to (`parser.ts`, `status.ts`,
`git.ts` and the watch-path lookup); they are not among the provided
sources, so the embedding is parameterised over them. -/
structure WatcherEnv where
  tailJSONL : String → Nat → List LogEntry × Nat
  extractSessionId : String → String
  extractMetadata : List LogEntry → Option SessionMetadata
  extractLatestPrompt : List LogEntry → String
  extractEncodedDir : String → String
  deriveStatus : List LogEntry → StatusResult
  getGitInfoCached : String → GitInfo
  getHostnameForPath : String → String

/-- The empty string, which is falsy in JavaScript. -/
def emptyStr : String := ""

/-- JavaScript `a || b` on nullable strings: `null` and the empty string
fall through to the right operand. -/
def jsOrString (a b : Option String) : Option String :=
  match a with
  | some s => if s ≠ emptyStr then some s else b
  | none => b

/-- `SessionWatcher.handleFile`: read the new entries from the last byte
position, rebuild metadata, derive the status, store the session and emit
`created` (applying supersession), `updated`, or nothing. -/
def handleFile (env : WatcherEnv) (sessions : Registry) (filepath : String) :
    Registry × List SessionEvent :=
  let sessionId := env.extractSessionId filepath
  let existingSession := lookupKey sessions sessionId
  let fromByte := (existingSession.map SessionState.bytePosition).getD 0
  let tailResult := env.tailJSONL filepath fromByte
  let newEntries := tailResult.1
  let newPosition := tailResult.2
  if newEntries.isEmpty && existingSession.isSome then
    (sessions, [])
  else
    let allEntries := match existingSession with
      | some s => s.entries ++ newEntries
      | none => newEntries
    let metadata : Option SessionMetadata := match existingSession with
      | some s =>
        let latestPrompt := env.extractLatestPrompt allEntries
        some { sessionId := s.sessionId, cwd := s.cwd, gitBranch := s.gitBranch,
               originalPrompt := if latestPrompt ≠ emptyStr then latestPrompt else s.originalPrompt,
               startedAt := s.startedAt }
      | none => env.extractMetadata allEntries
    match metadata with
    | none => (sessions, [])
    | some md =>
      let gitInfo : GitInfo := match existingSession with
        | some s => { repoUrl := s.gitRepoUrl, repoId := s.gitRepoId, branch := s.gitBranch,
                      isGitRepo := s.gitRepoUrl.isSome || s.gitBranch.isSome }
        | none => env.getGitInfoCached md.cwd
      let status := env.deriveStatus allEntries
      let previousStatus := existingSession.map SessionState.status
      let session : SessionState := {
        sessionId := sessionId,
        hostname := env.getHostnameForPath filepath,
        filepath := filepath,
        encodedDir := env.extractEncodedDir filepath,
        cwd := md.cwd,
        gitBranch := jsOrString gitInfo.branch md.gitBranch,
        originalPrompt := md.originalPrompt,
        startedAt := md.startedAt,
        status := status,
        entries := allEntries,
        bytePosition := newPosition,
        gitRepoUrl := gitInfo.repoUrl,
        gitRepoId := gitInfo.repoId }
      let sessions1 := setKey sessions sessionId session
      let isNew := existingSession.isNone
      let hasStatusChange := statusChanged previousStatus status
      let hasNewMessages := match existingSession with
        | some s => decide (s.status.messageCount < status.messageCount)
        | none => false
      if isNew then
        let removed := removeSupersededSessions sessions1 session
        (removed.1, removed.2 ++ [SessionEvent.created session])
      else if hasStatusChange || hasNewMessages then
        (sessions1, [SessionEvent.updated session previousStatus])
      else
        (sessions1, [])

/-! ### Publish pipeline (the watcher `session` handler in `serve.ts`) -/

/-- Change-stream operation kinds. -/
inductive StreamOperation where
  | insert
  | update
  | delete
deriving DecidableEq, Repr

/-- Kinds of notification attached to an update record. -/
inductive NotifyKind where
  | waitingForInput
  | needsApproval
deriving DecidableEq, Repr

/-- A notification payload (`{type, timestamp}`). -/
structure SessionNotify where
  kind : NotifyKind
  timestamp : Nat
deriving DecidableEq, Repr

/-- A change record published to the stream: the session post-image, the
operation and the optional notification. -/
structure ChangeRecord where
  session : SessionState
  operation : StreamOperation
  notification : Option SessionNotify
deriving DecidableEq, Repr

/-- `MAX_AGE_HOURS * 60 * 60 * 1000`. -/
def maxAgeMsOfHours (maxAgeHours : Nat) : Nat :=
  maxAgeHours * 60 * 60 * 1000

/-- `isRecentSession`: the session's last activity is younger than the
age cutoff. -/
def isRecentSession (now maxAgeMs : Nat) (session : SessionState) : Bool :=
  decide (now - session.status.lastActivityAt < maxAgeMs)

/-- The daemon's watcher `session` handler: skip stale sessions unless
the event is a deletion, attach a notification exactly on the
working-to-waiting update transition, and map the event type to the
stream operation. -/
def handleSessionEvent (now maxAgeMs : Nat) (event : SessionEvent) : Option ChangeRecord :=
  let session := event.session
  if ¬ isRecentSession now maxAgeMs session ∧ ¬ event.isDeleted then
    none
  else
    let notification : Option SessionNotify :=
      match event with
      | SessionEvent.updated s prev? =>
        match prev? with
        | some prev =>
          if prev.status = SessionStatus.working ∧ s.status.status = SessionStatus.waiting then
            some { kind := if s.status.hasPendingToolUse then NotifyKind.needsApproval
                           else NotifyKind.waitingForInput,
                   timestamp := now }
          else
            none
        | none => none
      | _ => none
    let operation := match event with
      | SessionEvent.created _ => StreamOperation.insert
      | SessionEvent.deleted _ => StreamOperation.delete
      | SessionEvent.updated _ _ => StreamOperation.update
    some { session := session, operation := operation, notification := notification }

/-! ### PTY manager (`PtyManager` in `pty.ts`) -/

/-- Idle timeout before killing a PTY (2 hours), `IDLE_TIMEOUT_MS`. -/
def IDLE_TIMEOUT_MS : Nat := 2 * 60 * 60 * 1000

/-- Idle sweep period (5 minutes), `IDLE_CHECK_INTERVAL_MS`. -/
def IDLE_CHECK_INTERVAL_MS : Nat := 5 * 60 * 1000

/-- Output ring-buffer bound (100 KiB), `MAX_OUTPUT_BUFFER_SIZE`. -/
def MAX_OUTPUT_BUFFER_SIZE : Nat := 100 * 1024

/-- PTY output is a byte sequence. -/
abbrev OutputBuffer := List Nat

/-- The WebSocket `readyState` value for an open connection. -/
def WS_OPEN : Nat := 1

/-- A subscriber WebSocket connection as the manager sees it: an identity
and a ready state. -/
structure Conn where
  id : Nat
  readyState : Nat
deriving DecidableEq, Repr

/-- Whether a connection is open (`ws.readyState === 1`). -/
def Conn.isOpen (c : Conn) : Bool :=
  c.readyState == WS_OPEN

/-- Messages the daemon sends to terminal WebSocket clients. -/
inductive WsOutMsg where
  | output (data : OutputBuffer)
  | exitMsg (code : Option Nat)
  | attached (ptyId sessionId : String)
  | launcherComplete (sessionId ptyId cwd : String)
  | pong
  | errorMsg (message : String)
deriving DecidableEq, Repr

/-- Observable side effects of PTY-manager operations, in order. The tmux
constructors exist so that "never touches the multiplexer" is a statement
about the absence of such actions. -/
inductive PtyAction where
  | sendMsg (connId : Nat) (msg : WsOutMsg)
  | killProcess (ptyId : String)
  | emitClosed (ptyId sessionId : String)
  | tmuxKillSession (name : String)
  | tmuxRenameSession (oldName newName : String)
  | tmuxNewSession (name : String)
deriving DecidableEq, Repr

/-- Whether an action operates on the terminal multiplexer. -/
def PtyAction.isTmuxOp : PtyAction → Bool
  | .tmuxKillSession _ => true
  | .tmuxRenameSession _ _ => true
  | .tmuxNewSession _ => true
  | _ => false

/-- A managed PTY (`ManagedPty` in `pty.ts`). -/
structure ManagedPty where
  ptyId : String
  sessionId : String
  launcherId : Option String
  cwd : String
  hostname : String
  createdAt : Nat
  lastActivityAt : Nat
  connections : List Conn
  outputBuffer : OutputBuffer
  tmuxSession : Option String
  warning : Option String
deriving DecidableEq, Repr

/-- The PTY manager's mutable state: the three maps, plus the ambient set
of multiplexer sessions on the host (to state frame conditions). -/
structure PtyManagerState where
  ptys : List (String × ManagedPty)
  sessionToPty : List (String × String)
  launcherToPty : List (String × String)
  tmuxSessions : List String
deriving DecidableEq, Repr

/-- The buffer update of the `onData` handler: append the chunk, then
keep only the last `MAX_OUTPUT_BUFFER_SIZE` bytes (`slice(-MAX)`). -/
def onDataStep (buffer : OutputBuffer) (data : OutputBuffer) : OutputBuffer :=
  let b := buffer ++ data
  if MAX_OUTPUT_BUFFER_SIZE < b.length then
    b.drop (b.length - MAX_OUTPUT_BUFFER_SIZE)
  else
    b

/-- The broadcast loop of the `onData` handler: send the chunk to each
connection whose `readyState` is open, skip the rest. -/
def broadcastData (connections : List Conn) (data : OutputBuffer) : List (Nat × WsOutMsg) :=
  connections.filterMap (fun ws =>
    if ws.isOpen then some (ws.id, WsOutMsg.output data) else none)

/-- The whole `onData` handler on a managed PTY: refresh the activity
timestamp, update the ring buffer, and broadcast the chunk. The
connection set is not touched. -/
def ptyOnData (pty : ManagedPty) (data : OutputBuffer) (now : Nat) :
    ManagedPty × List (Nat × WsOutMsg) :=
  ({ pty with lastActivityAt := now, outputBuffer := onDataStep pty.outputBuffer data },
   broadcastData pty.connections data)

/-- `PtyManager.kill`: notify open subscribers with an `exit` message,
kill the PTY process, remove the `ptyId` and `sessionId` map entries and
emit `closed`. Returns the new state, the actions in order, and the
boolean result. -/
def PtyManagerState.kill (st : PtyManagerState) (ptyId : String) :
    PtyManagerState × List PtyAction × Bool :=
  match lookupKey st.ptys ptyId with
  | none => (st, [], false)
  | some pty =>
    let exitMsgs := pty.connections.filterMap (fun ws =>
      if ws.isOpen then some (PtyAction.sendMsg ws.id (WsOutMsg.exitMsg none)) else none)
    ({ st with ptys := eraseKey st.ptys ptyId,
               sessionToPty := eraseKey st.sessionToPty pty.sessionId },
     exitMsgs ++ [PtyAction.killProcess ptyId, PtyAction.emitClosed ptyId pty.sessionId],
     true)

/-- The `for` loop of `checkIdleTimeouts` over a snapshot of the PTY
table entries: kill each entry idle for longer than `IDLE_TIMEOUT_MS`. -/
def sweepLoop (now : Nat) :
    List (String × ManagedPty) → PtyManagerState × List PtyAction →
      PtyManagerState × List PtyAction
  | [], acc => acc
  | entry :: rest, acc =>
    let idleTime := now - entry.2.lastActivityAt
    if IDLE_TIMEOUT_MS < idleTime then
      let r := acc.1.kill entry.1
      sweepLoop now rest (r.1, acc.2 ++ r.2.1)
    else
      sweepLoop now rest acc

/-- `PtyManager.checkIdleTimeouts`: sweep the PTY table and kill every
entry idle for longer than `IDLE_TIMEOUT_MS`. -/
def checkIdleTimeouts (st : PtyManagerState) (now : Nat) :
    PtyManagerState × List PtyAction :=
  sweepLoop now st.ptys (st, [])

/-- The kill loop of `PtyManager.stop` over a snapshot of the keys. -/
def stopLoop :
    List String → PtyManagerState × List PtyAction → PtyManagerState × List PtyAction
  | [], acc => acc
  | ptyId :: rest, acc =>
    let r := acc.1.kill ptyId
    stopLoop rest (r.1, acc.2 ++ r.2.1)

/-- `PtyManager.stop`: kill every PTY (clearing the idle ticker has no
further observable effect in this model). -/
def PtyManagerState.stop (st : PtyManagerState) : PtyManagerState × List PtyAction :=
  stopLoop (mapKeys st.ptys) (st, [])

/-- `PtyManager.detach`: remove one WebSocket from a PTY's connection
set. -/
def PtyManagerState.detach (st : PtyManagerState) (ptyId : String) (ws : Conn) :
    PtyManagerState :=
  match lookupKey st.ptys ptyId with
  | none => st
  | some pty =>
    { st with ptys := setKey st.ptys ptyId { pty with connections := pty.connections.erase ws } }

/-! ### Launcher reconciliation (`waitForClaudeSession` in `pty.ts`) -/

/-- The log-file suffix (`.jsonl`). -/
def jsonlSuffix : String := ".jsonl"

/-- The agent-session multiplexer name tag (`claude-`). -/
def claudeTag : String := "claude-"

/-- The launcher multiplexer name tag (`launcher-`). -/
def launcherTag : String := "launcher-"

/-- `getTmuxSessionName`: `claude-` plus the first 8 characters of the
session id. -/
def getTmuxSessionName (sessionId : String) : String :=
  claudeTag ++ (sessionId.take 8)

/-- `getLauncherSessionName`: `launcher-` plus the first 8 characters of
the launcher id. -/
def getLauncherSessionName (launcherId : String) : String :=
  launcherTag ++ (launcherId.take 8)

/-- Suffix test on strings, modelled on the character list (JavaScript
`String.endsWith`). -/
def strEndsWith (s pat : String) : Bool :=
  pat.data.isSuffixOf s.data

/-- Remove the first occurrence of `pat` from a character list; the list
is unchanged when `pat` does not occur. -/
def replaceFirstAux (pat : List Char) : List Char → List Char
  | [] => []
  | c :: rest =>
    if pat.isPrefixOf (c :: rest) then
      (c :: rest).drop pat.length
    else
      c :: replaceFirstAux pat rest

/-- JavaScript `String.replace` with a string pattern and an empty
replacement: remove the first occurrence only. -/
def replaceFirst (s pat : String) : String :=
  String.mk (replaceFirstAux pat.data s.data)

/-- The launcher poll window (`maxWait`, 10 seconds). -/
def maxWaitMs : Nat := 10000

/-- The launcher poll period (`pollInterval`, 500 ms). -/
def pollIntervalMs : Nat := 500

/-- The files a poll observes: the directory listing filtered to log
files that were not in the baseline snapshot. -/
def newFilesAt (listing : Nat → List String) (existingFiles : List String) (k : Nat) :
    List String :=
  ((listing k).filter (fun f => strEndsWith f jsonlSuffix)).filter
    (fun f => ¬ existingFiles.contains f)

/-- The outcome of the launcher reconciliation: the updated
sessionId-to-ptyId map, the (possibly renamed) managed PTY, and the
actions performed. -/
structure LauncherWaitOutcome where
  sessionToPty : List (String × String)
  pty : ManagedPty
  actions : List PtyAction
deriving DecidableEq, Repr

/-- The poll loop of `waitForClaudeSession`. Poll `k` runs at
`(k+1) * pollInterval` after the start; it first checks the directory for
a new log stem (success: rename the multiplexer session, swap the map
entry and the PTY's session id, notify subscribers), then checks the
elapsed-time bound (timeout: notify subscribers with the PTY's current,
placeholder, session id), and otherwise re-arms itself. -/
def waitLoop (listing : Nat → List String) (existingFiles : List String)
    (tempSessionId : String) (newPty : ManagedPty) (sessionToPty : List (String × String))
    (connections : List Conn) (cwd : String) (k : Nat) : LauncherWaitOutcome :=
  let currentFiles := (listing k).filter (fun f => strEndsWith f jsonlSuffix)
  let newFiles := currentFiles.filter (fun f => ¬ existingFiles.contains f)
  match newFiles with
  | f :: _ =>
    let realSessionId := replaceFirst f jsonlSuffix
    let oldTmuxName := getTmuxSessionName tempSessionId
    let newTmuxName := getTmuxSessionName realSessionId
    let renames := if oldTmuxName ≠ newTmuxName then
        [PtyAction.tmuxRenameSession oldTmuxName newTmuxName]
      else
        []
    let sessionToPty1 := setKey (eraseKey sessionToPty tempSessionId) realSessionId newPty.ptyId
    let msgs := connections.filterMap (fun ws =>
      if ws.isOpen then
        some (PtyAction.sendMsg ws.id (WsOutMsg.launcherComplete realSessionId newPty.ptyId cwd))
      else
        none)
    { sessionToPty := sessionToPty1,
      pty := { newPty with sessionId := realSessionId, tmuxSession := some newTmuxName },
      actions := renames ++ msgs }
  | [] =>
    if maxWaitMs < (k + 1) * pollIntervalMs then
      { sessionToPty := sessionToPty,
        pty := newPty,
        actions := connections.filterMap (fun ws =>
          if ws.isOpen then
            some (PtyAction.sendMsg ws.id
              (WsOutMsg.launcherComplete newPty.sessionId newPty.ptyId cwd))
          else
            none) }
    else
      waitLoop listing existingFiles tempSessionId newPty sessionToPty connections cwd (k + 1)
termination_by maxWaitMs / pollIntervalMs + 1 - k
decreasing_by
  simp only [maxWaitMs, pollIntervalMs] at *
  omega

/-- `waitForClaudeSession`: snapshot the project directory's log files,
then poll for a new stem. -/
def waitForClaudeSession (baseline : List String) (listing : Nat → List String)
    (tempSessionId : String) (newPty : ManagedPty) (sessionToPty : List (String × String))
    (connections : List Conn) (cwd : String) : LauncherWaitOutcome :=
  let existingFiles := baseline.filter (fun f => strEndsWith f jsonlSuffix)
  waitLoop listing existingFiles tempSessionId newPty sessionToPty connections cwd 0

/-! ### Terminal WebSocket endpoint (`terminal-ws.ts`) -/

/-- A JavaScript number as far as truthiness of terminal-message fields
is concerned: `NaN` and `0` are falsy. -/
inductive JSNumber where
  | nan
  | num (n : Nat)
deriving DecidableEq, Repr

/-- JavaScript truthiness of a number. -/
def JSNumber.truthy : JSNumber → Bool
  | .nan => false
  | .num n => n != 0

/-- Inbound terminal messages (`TerminalMessage` in `terminal-ws.ts`);
absent fields are `none`, and an unrecognised `type` falls to the default
branch. -/
inductive TerminalMessage where
  | input (data : Option String)
  | resize (cols rows : Option JSNumber)
  | ping
  | other (t : String)
deriving DecidableEq, Repr

/-- Per-connection state (`ConnectionState` in `terminal-ws.ts`). -/
structure ConnectionState where
  sessionId : Option String
  launcherId : Option String
  ptyId : Option String
  cwd : Option String
  hostname : Option String
deriving DecidableEq, Repr

/-- Observable effects of handling one inbound terminal message. -/
inductive TermWsAction where
  | writePty (ptyId : String) (data : String)
  | resizePty (ptyId : String) (cols rows : JSNumber)
  | send (msg : WsOutMsg)
  | close (code : Nat) (reason : String)
deriving DecidableEq, Repr

/-- `TerminalWebSocketServer.handleMessage`: forward truthy input and
resize requests to the PTY manager, answer `ping` with `pong`, ignore
everything else; a connection with no PTY ignores every message. -/
def handleMessage (state : ConnectionState) (message : TerminalMessage) : List TermWsAction :=
  match state.ptyId with
  | none => []
  | some ptyId =>
    match message with
    | TerminalMessage.input (some d) =>
      if d != emptyStr then [TermWsAction.writePty ptyId d] else []
    | TerminalMessage.input none => []
    | TerminalMessage.resize (some c) (some r) =>
      if c.truthy && r.truthy then [TermWsAction.resizePty ptyId c r] else []
    | TerminalMessage.resize _ _ => []
    | TerminalMessage.ping => [TermWsAction.send WsOutMsg.pong]
    | TerminalMessage.other _ => []

/-! ### Sample data used by witnesses -/

/-- A status with a pending tool use, in the `waiting` state. -/
def waitingStatus : StatusResult :=
  { status := SessionStatus.waiting, hasPendingToolUse := true,
    pendingTool := some "Bash", messageCount := 3, lastActivityAt := 1000 }

/-- A status in the `working` state. -/
def workingStatus : StatusResult :=
  { status := SessionStatus.working, hasPendingToolUse := false,
    pendingTool := none, messageCount := 2, lastActivityAt := 900 }

/-- An idle status. -/
def idleStatus : StatusResult :=
  { status := SessionStatus.idle, hasPendingToolUse := false,
    pendingTool := none, messageCount := 5, lastActivityAt := 100 }

/-- A sample session currently waiting with a pending tool use. -/
def sampleSession : SessionState :=
  { sessionId := "s1", hostname := "h", filepath := "f", encodedDir := "d",
    cwd := "/w", gitBranch := none, originalPrompt := "p", startedAt := "t",
    status := waitingStatus, entries := [], bytePosition := 0,
    gitRepoUrl := none, gitRepoId := none }

/-! ### Claim theorems: publish pipeline -/

/-- C4: a published change record carries a non-null `notification` only
when it is an `update` record for a session whose previous status was
`working` and whose new status is `waiting`; on such a record the kind is
`needs_approval` exactly when `hasPendingToolUse` holds, and
`waiting_for_input` otherwise; `insert` and `delete` records never carry
a notification. -/
theorem claim_C4_notification_transition (now maxAgeMs : Nat) (event : SessionEvent)
    (r : ChangeRecord) (h : handleSessionEvent now maxAgeMs event = some r) :
    (r.notification.isSome = true ↔
      ∃ s prev, event = SessionEvent.updated s (some prev) ∧
        prev.status = SessionStatus.working ∧
        s.status.status = SessionStatus.waiting) ∧
    (∀ n, r.notification = some n →
      n.kind = (if r.session.status.hasPendingToolUse then NotifyKind.needsApproval
                else NotifyKind.waitingForInput)) ∧
    ((r.operation = StreamOperation.insert ∨ r.operation = StreamOperation.delete) →
      r.notification = none) := by
  cases event with
  | created s =>
    rw [handleSessionEvent] at h
    split at h
    · exact absurd h (by simp)
    · injection h with h
      subst h
      refine ⟨?_, by simp, by simp⟩
      constructor
      · intro hfalse
        simp at hfalse
      · rintro ⟨s', prev', heq, -, -⟩
        exact SessionEvent.noConfusion heq
  | deleted s =>
    rw [handleSessionEvent] at h
    split at h
    · exact absurd h (by simp)
    · injection h with h
      subst h
      refine ⟨?_, by simp, by simp⟩
      constructor
      · intro hfalse
        simp at hfalse
      · rintro ⟨s', prev', heq, -, -⟩
        exact SessionEvent.noConfusion heq
  | updated s prev? =>
    cases prev? with
    | none =>
      rw [handleSessionEvent] at h
      split at h
      · exact absurd h (by simp)
      · injection h with h
        subst h
        refine ⟨?_, by simp, by simp⟩
        constructor
        · intro hfalse
          simp at hfalse
        · rintro ⟨s', prev', heq, -, -⟩
          injection heq with h1 h2
          exact Option.noConfusion h2
    | some prev =>
      rw [handleSessionEvent] at h
      split at h
      · exact absurd h (by simp)
      · by_cases htr : prev.status = SessionStatus.working ∧
            s.status.status = SessionStatus.waiting
        · rw [if_pos htr] at h
          injection h with h
          subst h
          refine ⟨?_, ?_, by simp⟩
          · constructor
            · intro _
              exact ⟨s, prev, rfl, htr.1, htr.2⟩
            · intro _
              simp
          · intro n hn
            simp [SessionEvent.session] at hn ⊢
            rw [← hn]
        · rw [if_neg htr] at h
          injection h with h
          subst h
          refine ⟨?_, by simp, by simp⟩
          constructor
          · intro hfalse
            simp at hfalse
          · rintro ⟨s', prev', heq, hw, hwait⟩
            injection heq with h1 h2
            subst h1
            injection h2 with h2
            subst h2
            exact (htr ⟨hw, hwait⟩).elim

/-- C4 witness: the theorem applied to a concrete `working → waiting`
update with a pending tool use. -/
theorem claim_C4_witness :
    ((some (⟨NotifyKind.needsApproval, 2000⟩ : SessionNotify)).isSome = true ↔
      ∃ s prev, SessionEvent.updated sampleSession (some workingStatus) =
          SessionEvent.updated s (some prev) ∧
        prev.status = SessionStatus.working ∧
        s.status.status = SessionStatus.waiting) :=
  (claim_C4_notification_transition 2000 100000
    (SessionEvent.updated sampleSession (some workingStatus))
    { session := sampleSession, operation := StreamOperation.update,
      notification := some ⟨NotifyKind.needsApproval, 2000⟩ }
    (by decide)).1

/-- C9: the publish filter exempts deletions from the age cutoff: a
`deleted` event is always published (as a `delete` record), while
`created` and `updated` events for a session whose last activity is at
least `MAX_AGE_MS` in the past are not published at all. -/
theorem claim_C9_age_filter_exempts_deletions (now maxAgeMs : Nat) (event : SessionEvent) :
    (∀ s, event = SessionEvent.deleted s →
      handleSessionEvent now maxAgeMs event =
        some { session := s, operation := StreamOperation.delete, notification := none }) ∧
    (∀ s prev, (event = SessionEvent.created s ∨ event = SessionEvent.updated s prev) →
      maxAgeMs ≤ now - s.status.lastActivityAt →
      handleSessionEvent now maxAgeMs event = none) := by
  constructor
  · rintro s rfl
    rw [handleSessionEvent]
    rw [if_neg (by simp [SessionEvent.isDeleted])]
    rfl
  · rintro s prev (rfl | rfl) hold
    · rw [handleSessionEvent]
      rw [if_pos ?_]
      refine ⟨?_, by simp [SessionEvent.isDeleted]⟩
      simp [SessionEvent.session, isRecentSession]
      omega
    · cases prev with
      | none =>
        rw [handleSessionEvent]
        rw [if_pos ?_]
        refine ⟨?_, by simp [SessionEvent.isDeleted]⟩
        simp [SessionEvent.session, isRecentSession]
        omega
      | some p =>
        rw [handleSessionEvent]
        rw [if_pos ?_]
        refine ⟨?_, by simp [SessionEvent.isDeleted]⟩
        simp [SessionEvent.session, isRecentSession]
        omega

/-- C9 witness: a stale deletion is still published while a stale
creation is suppressed (the session's `lastActivityAt` is 100, the clock
is far past the cutoff). -/
theorem claim_C9_witness :
    handleSessionEvent 999999999 3600000 (SessionEvent.deleted sampleSession) =
      some { session := sampleSession, operation := StreamOperation.delete,
             notification := none } ∧
    handleSessionEvent 999999999 3600000 (SessionEvent.created sampleSession) = none :=
  ⟨(claim_C9_age_filter_exempts_deletions 999999999 3600000
      (SessionEvent.deleted sampleSession)).1 sampleSession rfl,
   (claim_C9_age_filter_exempts_deletions 999999999 3600000
      (SessionEvent.created sampleSession)).2 sampleSession none (Or.inl rfl) (by decide)⟩

/-! ### Claim theorems: terminal WebSocket endpoint -/

/-- C10: on an established connection, a `resize` whose cols or rows is
falsy (0, missing, or NaN) performs nothing, an `input` whose data is
absent or empty writes nothing, and in both cases the connection stays
open with no error sent (the handler performs no action at all); a `ping`
produces exactly one `pong`. -/
theorem claim_C10_message_guards (state : ConnectionState) (ptyId : String)
    (h : state.ptyId = some ptyId) :
    (∀ cols rows : Option JSNumber,
      ¬ (∃ c r', cols = some c ∧ rows = some r' ∧ c.truthy = true ∧ r'.truthy = true) →
      handleMessage state (TerminalMessage.resize cols rows) = []) ∧
    handleMessage state (TerminalMessage.input none) = [] ∧
    handleMessage state (TerminalMessage.input (some emptyStr)) = [] ∧
    handleMessage state TerminalMessage.ping = [TermWsAction.send WsOutMsg.pong] := by
  obtain ⟨sid, lid, pid, cw, ho⟩ := state
  dsimp at h
  subst h
  refine ⟨?_, ?_, ?_, ?_⟩
  · intro cols rows hfal
    cases cols with
    | none => rfl
    | some c =>
      cases rows with
      | none => rfl
      | some r' =>
        have hb : ¬ ((c.truthy && r'.truthy) = true) := by
          intro hb
          rw [Bool.and_eq_true] at hb
          exact hfal ⟨c, r', rfl, rfl, hb.1, hb.2⟩
        show (if (c.truthy && r'.truthy) = true
            then [TermWsAction.resizePty ptyId c r'] else []) = []
        rw [if_neg hb]
  · rfl
  · show (if (emptyStr != emptyStr) = true
        then [TermWsAction.writePty ptyId emptyStr] else []) = []
    rw [if_neg (by simp)]
  · rfl

/-- C10 witness: the theorem applied to a connection bound to a concrete
PTY, with a zero-column resize among the guarded inputs. -/
theorem claim_C10_witness :
    handleMessage { sessionId := some "s1", launcherId := none, ptyId := some "pty-1",
                    cwd := some "/w", hostname := some "local" }
        (TerminalMessage.resize (some (JSNumber.num 0)) (some (JSNumber.num 24))) = [] ∧
    handleMessage { sessionId := some "s1", launcherId := none, ptyId := some "pty-1",
                    cwd := some "/w", hostname := some "local" }
        TerminalMessage.ping = [TermWsAction.send WsOutMsg.pong] := by
  refine ⟨?_, ?_⟩
  · refine (claim_C10_message_guards _ "pty-1" rfl).1
      (some (JSNumber.num 0)) (some (JSNumber.num 24)) ?_
    rintro ⟨c, r', hc, hr', htc, htr⟩
    injection hc with hc
    subst hc
    exact absurd htc (by decide)
  · exact (claim_C10_message_guards _ "pty-1" rfl).2.2.2

/-! ### Claim theorems: PTY output buffer and broadcast -/

theorem onDataStep_closed_form (j d : OutputBuffer) :
    onDataStep (j.drop (j.length - MAX_OUTPUT_BUFFER_SIZE)) d =
      (j ++ d).drop ((j ++ d).length - MAX_OUTPUT_BUFFER_SIZE) := by
  unfold onDataStep
  have hle : j.length - MAX_OUTPUT_BUFFER_SIZE ≤ j.length := Nat.sub_le _ _
  have happ : j.drop (j.length - MAX_OUTPUT_BUFFER_SIZE) ++ d =
      (j ++ d).drop (j.length - MAX_OUTPUT_BUFFER_SIZE) := by
    rw [List.drop_append_of_le_length hle]
  rw [happ]
  by_cases hcase :
      MAX_OUTPUT_BUFFER_SIZE < ((j ++ d).drop (j.length - MAX_OUTPUT_BUFFER_SIZE)).length
  · rw [if_pos hcase]
    rw [List.drop_drop]
    have hidx : j.length - MAX_OUTPUT_BUFFER_SIZE +
        (((j ++ d).drop (j.length - MAX_OUTPUT_BUFFER_SIZE)).length -
          MAX_OUTPUT_BUFFER_SIZE) =
        (j ++ d).length - MAX_OUTPUT_BUFFER_SIZE := by
      rw [List.length_drop, List.length_append] at hcase ⊢
      omega
    rw [hidx]
  · rw [if_neg hcase]
    have heq : j.length - MAX_OUTPUT_BUFFER_SIZE =
        (j ++ d).length - MAX_OUTPUT_BUFFER_SIZE := by
      rw [List.length_drop, List.length_append] at hcase
      rw [List.length_append]
      omega
    rw [heq]

theorem foldl_onDataStep_closed_form (chunks : List OutputBuffer) :
    chunks.foldl onDataStep [] =
      chunks.flatten.drop (chunks.flatten.length - MAX_OUTPUT_BUFFER_SIZE) := by
  induction chunks using List.reverseRecOn with
  | nil => simp
  | append_singleton l a ih =>
    rw [List.foldl_append, List.foldl_cons, List.foldl_nil, ih,
      onDataStep_closed_form, List.flatten_append, List.flatten_cons, List.flatten_nil,
      List.append_nil]

theorem broadcastData_eq_filter (connections : List Conn) (data : OutputBuffer) :
    broadcastData connections data =
      (connections.filter Conn.isOpen).map (fun ws => (ws.id, WsOutMsg.output data)) := by
  induction connections with
  | nil => rfl
  | cons c rest ih =>
    by_cases h : c.isOpen = true
    · rw [broadcastData, List.filterMap_cons]
      rw [broadcastData] at ih
      simp only [h, if_pos]
      rw [List.filter_cons_of_pos h, List.map_cons, ih]
    · rw [broadcastData, List.filterMap_cons]
      rw [broadcastData] at ih
      simp only [h, if_neg, Bool.false_eq_true, if_false]
      rw [List.filter_cons_of_neg (by simpa using h), ih]

/-- C5: after any sequence of PTY output chunks, the output buffer equals
the last `MAX_OUTPUT_BUFFER_SIZE` bytes of the cumulative output — a
suffix of it, never longer than 100 KiB, with only the oldest bytes
dropped — and each arriving chunk is broadcast to every open subscriber
connection. -/
theorem claim_C5_output_buffer_invariant (chunks : List OutputBuffer)
    (connections : List Conn) (data : OutputBuffer) :
    (chunks.foldl onDataStep [] =
      chunks.flatten.drop (chunks.flatten.length - MAX_OUTPUT_BUFFER_SIZE)) ∧
    (chunks.foldl onDataStep []).length ≤ MAX_OUTPUT_BUFFER_SIZE ∧
    List.IsSuffix (chunks.foldl onDataStep []) chunks.flatten ∧
    (∀ ws ∈ connections, ws.isOpen = true →
      (ws.id, WsOutMsg.output data) ∈ broadcastData connections data) := by
  refine ⟨foldl_onDataStep_closed_form chunks, ?_, ?_, ?_⟩
  · rw [foldl_onDataStep_closed_form, List.length_drop]
    omega
  · rw [foldl_onDataStep_closed_form]
    exact List.drop_suffix _ _
  · intro ws hws hopen
    rw [broadcastData_eq_filter]
    exact List.mem_map_of_mem _ (List.mem_filter.mpr ⟨hws, hopen⟩)

/-- C5 witness: the theorem applied to concrete chunks and one open
subscriber. -/
theorem claim_C5_witness :
    [[1], [2], [3]].foldl onDataStep [] =
      ([[1], [2], [3]] : List OutputBuffer).flatten.drop
        (([[1], [2], [3]] : List OutputBuffer).flatten.length - MAX_OUTPUT_BUFFER_SIZE) ∧
    ((0 : Nat), WsOutMsg.output [9]) ∈ broadcastData [{ id := 0, readyState := 1 }] [9] :=
  ⟨(claim_C5_output_buffer_invariant [[1], [2], [3]] [] []).1,
   (claim_C5_output_buffer_invariant [[1], [2], [3]] [{ id := 0, readyState := 1 }] [9]).2.2.2
     { id := 0, readyState := 1 } (by simp) (by decide)⟩

/-- A closed WebSocket connection (`readyState` 3). -/
def closedConn : Conn := { id := 0, readyState := 3 }

/-- A sample managed PTY whose only subscriber connection is closed. -/
def samplePty : ManagedPty :=
  { ptyId := "pty-1", sessionId := "s1", launcherId := none, cwd := "/w",
    hostname := "local", createdAt := 0, lastActivityAt := 0,
    connections := [closedConn], outputBuffer := [],
    tmuxSession := some "claude-s1", warning := none }

/-- C8 counterexample: when the broadcast encounters a closed subscriber
the send is indeed dropped, but the subscriber count is NOT decremented —
the connection set still has its single (closed) member after the
`onData` handler runs, whereas the claim predicts a decrement to zero. -/
theorem claim_C8_counterexample :
    broadcastData samplePty.connections [7] = [] ∧
    (ptyOnData samplePty [7] 5).1.connections.length = 1 ∧
    ¬ ((ptyOnData samplePty [7] 5).1.connections.length =
        samplePty.connections.length - 1) := by
  refine ⟨rfl, rfl, ?_⟩
  intro h
  simp [ptyOnData, samplePty] at h

/-- C8 (amended): the broadcast silently skips connections that are not
open and leaves the connection set unchanged; the subscriber count drops
only when the connection's close event triggers `detach`, which removes
the WebSocket from the set. -/
theorem claim_C8_broadcast_drop_detach_decrement
    (pty : ManagedPty) (data : OutputBuffer) (now : Nat)
    (st : PtyManagerState) (ptyId : String) (ws : Conn)
    (hpty : lookupKey st.ptys ptyId = some pty)
    (hws : ws ∈ pty.connections) :
    ((ptyOnData pty data now).1.connections = pty.connections) ∧
    (broadcastData pty.connections data =
      (pty.connections.filter Conn.isOpen).map (fun c => (c.id, WsOutMsg.output data))) ∧
    (∃ pty', lookupKey (st.detach ptyId ws).ptys ptyId = some pty' ∧
      pty'.connections.length = pty.connections.length - 1) := by
  refine ⟨rfl, broadcastData_eq_filter _ _, ?_⟩
  refine ⟨{ pty with connections := pty.connections.erase ws }, ?_, ?_⟩
  · rw [PtyManagerState.detach, hpty]
    exact lookupKey_setKey_self _ _ _
  · exact List.length_erase_of_mem hws

/-- C8 amended-claim witness: applied to a PTY with one closed and one
open connection, detaching the closed one. -/
theorem claim_C8_witness :
    ∃ pty', lookupKey
        ((PtyManagerState.mk [("pty-1", samplePty)] [] [] []).detach "pty-1" closedConn).ptys
        "pty-1" = some pty' ∧
      pty'.connections.length = samplePty.connections.length - 1 :=
  (claim_C8_broadcast_drop_detach_decrement samplePty [7] 5
    (PtyManagerState.mk [("pty-1", samplePty)] [] [] []) "pty-1" closedConn
    (by decide) (by decide)).2.2

/-! ### Kill, idle sweep and shutdown lemmas -/

theorem kill_of_lookup_some (st : PtyManagerState) (ptyId : String) (pty : ManagedPty)
    (h : lookupKey st.ptys ptyId = some pty) :
    st.kill ptyId =
      ({ st with ptys := eraseKey st.ptys ptyId,
                 sessionToPty := eraseKey st.sessionToPty pty.sessionId },
       (pty.connections.filterMap (fun ws =>
          if ws.isOpen then some (PtyAction.sendMsg ws.id (WsOutMsg.exitMsg none)) else none))
         ++ [PtyAction.killProcess ptyId, PtyAction.emitClosed ptyId pty.sessionId],
       true) := by
  unfold PtyManagerState.kill
  rw [h]

theorem kill_of_lookup_none (st : PtyManagerState) (ptyId : String)
    (h : lookupKey st.ptys ptyId = none) :
    st.kill ptyId = (st, [], false) := by
  unfold PtyManagerState.kill
  rw [h]

theorem kill_tmuxSessions (st : PtyManagerState) (ptyId : String) :
    (st.kill ptyId).1.tmuxSessions = st.tmuxSessions := by
  cases h : lookupKey st.ptys ptyId with
  | none => rw [kill_of_lookup_none st ptyId h]
  | some pty => rw [kill_of_lookup_some st ptyId pty h]

theorem kill_launcherToPty (st : PtyManagerState) (ptyId : String) :
    (st.kill ptyId).1.launcherToPty = st.launcherToPty := by
  cases h : lookupKey st.ptys ptyId with
  | none => rw [kill_of_lookup_none st ptyId h]
  | some pty => rw [kill_of_lookup_some st ptyId pty h]

theorem kill_actions_no_tmux (st : PtyManagerState) (ptyId : String) :
    ∀ a ∈ (st.kill ptyId).2.1, a.isTmuxOp = false := by
  intro a ha
  cases h : lookupKey st.ptys ptyId with
  | none =>
    rw [kill_of_lookup_none st ptyId h] at ha
    simp at ha
  | some pty =>
    rw [kill_of_lookup_some st ptyId pty h] at ha
    rcases List.mem_append.mp ha with ha | ha
    · obtain ⟨ws, _, hfw⟩ := List.mem_filterMap.mp ha
      by_cases hw : ws.isOpen = true
      · rw [if_pos hw] at hfw
        injection hfw with hfw
        rw [← hfw]
        rfl
      · rw [if_neg hw] at hfw
        exact Option.noConfusion hfw
    · rcases List.mem_cons.mp ha with rfl | ha
      · rfl
      · rcases List.mem_cons.mp ha with rfl | ha
        · rfl
        · simp at ha

theorem kill_keys_mono (st : PtyManagerState) (ptyId : String) (k : String)
    (h : k ∉ mapKeys st.ptys) : k ∉ mapKeys (st.kill ptyId).1.ptys := by
  cases hl : lookupKey st.ptys ptyId with
  | none =>
    rw [kill_of_lookup_none st ptyId hl]
    exact h
  | some pty =>
    rw [kill_of_lookup_some st ptyId pty hl]
    intro hk
    obtain ⟨v, hv⟩ := mem_mapKeys.mp hk
    exact h (mem_mapKeys.mpr ⟨v, eraseKey_subset _ _ _ hv⟩)

theorem kill_mem_ne (st : PtyManagerState) (ptyId : String) (p : String × ManagedPty)
    (hp : p ∈ st.ptys) (hne : p.1 ≠ ptyId) : p ∈ (st.kill ptyId).1.ptys := by
  cases hl : lookupKey st.ptys ptyId with
  | none =>
    rw [kill_of_lookup_none st ptyId hl]
    exact hp
  | some pty =>
    rw [kill_of_lookup_some st ptyId pty hl]
    exact mem_eraseKey_of_ne hp hne

theorem kill_keys_nodup (st : PtyManagerState) (ptyId : String)
    (h : (mapKeys st.ptys).Nodup) : (mapKeys (st.kill ptyId).1.ptys).Nodup := by
  cases hl : lookupKey st.ptys ptyId with
  | none =>
    rw [kill_of_lookup_none st ptyId hl]
    exact h
  | some pty =>
    rw [kill_of_lookup_some st ptyId pty hl]
    exact eraseKey_keys_nodup ptyId h

theorem kill_self_not_mem (st : PtyManagerState) (ptyId : String) (pty : ManagedPty)
    (h : lookupKey st.ptys ptyId = some pty) :
    ptyId ∉ mapKeys (st.kill ptyId).1.ptys := by
  rw [kill_of_lookup_some st ptyId pty h]
  exact eraseKey_not_mem_keys _ _

theorem kill_killProcess_mem (st : PtyManagerState) (ptyId : String) (pty : ManagedPty)
    (h : lookupKey st.ptys ptyId = some pty) :
    PtyAction.killProcess ptyId ∈ (st.kill ptyId).2.1 := by
  rw [kill_of_lookup_some st ptyId pty h]
  exact List.mem_append.mpr (Or.inr (List.mem_cons_self _ _))

theorem sweepLoop_keys_mono (now : Nat) :
    ∀ (entries : List (String × ManagedPty)) (acc : PtyManagerState × List PtyAction)
      (k : String), k ∉ mapKeys acc.1.ptys →
      k ∉ mapKeys (sweepLoop now entries acc).1.ptys := by
  intro entries
  induction entries with
  | nil =>
    intro acc k h
    exact h
  | cons e rest ih =>
    intro acc k h
    simp only [sweepLoop]
    by_cases hc : IDLE_TIMEOUT_MS < now - e.2.lastActivityAt
    · rw [if_pos hc]
      exact ih _ k (kill_keys_mono _ _ k h)
    · rw [if_neg hc]
      exact ih _ k h

theorem sweepLoop_actions_mono (now : Nat) :
    ∀ (entries : List (String × ManagedPty)) (acc : PtyManagerState × List PtyAction)
      (a : PtyAction), a ∈ acc.2 → a ∈ (sweepLoop now entries acc).2 := by
  intro entries
  induction entries with
  | nil =>
    intro acc a h
    exact h
  | cons e rest ih =>
    intro acc a h
    simp only [sweepLoop]
    by_cases hc : IDLE_TIMEOUT_MS < now - e.2.lastActivityAt
    · rw [if_pos hc]
      exact ih _ a (List.mem_append.mpr (Or.inl h))
    · rw [if_neg hc]
      exact ih _ a h

theorem sweepLoop_kills (now : Nat) :
    ∀ (entries : List (String × ManagedPty)) (acc : PtyManagerState × List PtyAction)
      (ptyId : String) (pty : ManagedPty),
      (ptyId, pty) ∈ entries →
      (entries.map Prod.fst).Nodup →
      (ptyId, pty) ∈ acc.1.ptys →
      (mapKeys acc.1.ptys).Nodup →
      IDLE_TIMEOUT_MS < now - pty.lastActivityAt →
      ptyId ∉ mapKeys (sweepLoop now entries acc).1.ptys ∧
      PtyAction.killProcess ptyId ∈ (sweepLoop now entries acc).2 := by
  intro entries
  induction entries with
  | nil =>
    intro acc ptyId pty hmem
    simp at hmem
  | cons e rest ih =>
    intro acc ptyId pty hmem hnde hacc hnd hidle
    rcases List.mem_cons.mp hmem with heq | hmem'
    · subst heq
      simp only [sweepLoop]
      rw [if_pos hidle]
      have hl : lookupKey acc.1.ptys ptyId = some pty := mem_lookupKey hacc hnd
      constructor
      · exact sweepLoop_keys_mono now rest _ ptyId (kill_self_not_mem acc.1 ptyId pty hl)
      · exact sweepLoop_actions_mono now rest _ _
          (List.mem_append.mpr (Or.inr (kill_killProcess_mem acc.1 ptyId pty hl)))
    · have hne : e.1 ≠ ptyId := by
        rw [List.map_cons, List.nodup_cons] at hnde
        intro he
        exact hnde.1 (he ▸ List.mem_map_of_mem Prod.fst hmem')
      have hnde' : (rest.map Prod.fst).Nodup := by
        rw [List.map_cons, List.nodup_cons] at hnde
        exact hnde.2
      simp only [sweepLoop]
      by_cases hc : IDLE_TIMEOUT_MS < now - e.2.lastActivityAt
      · rw [if_pos hc]
        exact ih _ ptyId pty hmem' hnde'
          (kill_mem_ne acc.1 e.1 (ptyId, pty) hacc (fun hx => hne hx.symm))
          (kill_keys_nodup acc.1 e.1 hnd) hidle
      · rw [if_neg hc]
        exact ih _ ptyId pty hmem' hnde' hacc hnd hidle

theorem sweepLoop_tmux_frame (now : Nat) :
    ∀ (entries : List (String × ManagedPty)) (acc : PtyManagerState × List PtyAction),
      (sweepLoop now entries acc).1.tmuxSessions = acc.1.tmuxSessions ∧
      ∀ a ∈ (sweepLoop now entries acc).2, a ∈ acc.2 ∨ a.isTmuxOp = false := by
  intro entries
  induction entries with
  | nil =>
    intro acc
    exact ⟨rfl, fun a ha => Or.inl ha⟩
  | cons e rest ih =>
    intro acc
    simp only [sweepLoop]
    by_cases hc : IDLE_TIMEOUT_MS < now - e.2.lastActivityAt
    · rw [if_pos hc]
      refine ⟨?_, ?_⟩
      · rw [(ih _).1]
        exact kill_tmuxSessions acc.1 e.1
      · intro a ha
        rcases (ih _).2 a ha with hin | hok
        · rcases List.mem_append.mp hin with hin | hin
          · exact Or.inl hin
          · exact Or.inr (kill_actions_no_tmux acc.1 e.1 a hin)
        · exact Or.inr hok
    · rw [if_neg hc]
      exact ih acc

theorem stopLoop_tmux_frame :
    ∀ (ids : List String) (acc : PtyManagerState × List PtyAction),
      (stopLoop ids acc).1.tmuxSessions = acc.1.tmuxSessions ∧
      ∀ a ∈ (stopLoop ids acc).2, a ∈ acc.2 ∨ a.isTmuxOp = false := by
  intro ids
  induction ids with
  | nil =>
    intro acc
    exact ⟨rfl, fun a ha => Or.inl ha⟩
  | cons pid rest ih =>
    intro acc
    simp only [stopLoop]
    refine ⟨?_, ?_⟩
    · rw [(ih _).1]
      exact kill_tmuxSessions acc.1 pid
    · intro a ha
      rcases (ih _).2 a ha with hin | hok
      · rcases List.mem_append.mp hin with hin | hin
        · exact Or.inl hin
        · exact Or.inr (kill_actions_no_tmux acc.1 pid a hin)
      · exact Or.inr hok

/-! ### Claim theorems: PTY lifecycle -/

/-- C6: the idle sweep kills every managed PTY whose last activity is
more than `IDLE_TIMEOUT_MS` (2 hours) in the past — the entry leaves the
table and its process receives a kill — and, since sweeps run every
`IDLE_CHECK_INTERVAL_MS` (5 minutes), some sweep time falls within one
sweep interval after any PTY's idle threshold expires. -/
theorem claim_C6_idle_reclamation
    (st : PtyManagerState) (now : Nat) (ptyId : String) (pty : ManagedPty)
    (hmem : (ptyId, pty) ∈ st.ptys) (hnd : (mapKeys st.ptys).Nodup)
    (hidle : IDLE_TIMEOUT_MS < now - pty.lastActivityAt) :
    ptyId ∉ mapKeys (checkIdleTimeouts st now).1.ptys ∧
    PtyAction.killProcess ptyId ∈ (checkIdleTimeouts st now).2 ∧
    ∀ lastActivity : Nat, ∃ sweepIndex : Nat,
      lastActivity + IDLE_TIMEOUT_MS < sweepIndex * IDLE_CHECK_INTERVAL_MS ∧
      sweepIndex * IDLE_CHECK_INTERVAL_MS ≤
        lastActivity + IDLE_TIMEOUT_MS + IDLE_CHECK_INTERVAL_MS := by
  have hmain := sweepLoop_kills now st.ptys (st, []) ptyId pty hmem hnd hmem hnd hidle
  refine ⟨hmain.1, hmain.2, ?_⟩
  intro lastActivity
  refine ⟨(lastActivity + IDLE_TIMEOUT_MS) / IDLE_CHECK_INTERVAL_MS + 1, ?_, ?_⟩
  · have hdm := Nat.div_add_mod (lastActivity + IDLE_TIMEOUT_MS) IDLE_CHECK_INTERVAL_MS
    have hlt : (lastActivity + IDLE_TIMEOUT_MS) % IDLE_CHECK_INTERVAL_MS <
        IDLE_CHECK_INTERVAL_MS :=
      Nat.mod_lt _ (by rw [IDLE_CHECK_INTERVAL_MS]; omega)
    rw [IDLE_CHECK_INTERVAL_MS, IDLE_TIMEOUT_MS] at hdm hlt ⊢
    omega
  · have hdm := Nat.div_add_mod (lastActivity + IDLE_TIMEOUT_MS) IDLE_CHECK_INTERVAL_MS
    rw [IDLE_CHECK_INTERVAL_MS, IDLE_TIMEOUT_MS] at hdm ⊢
    omega

/-- A sample managed PTY that has been idle since time 0. -/
def idlePty : ManagedPty :=
  { ptyId := "pty-1", sessionId := "s1", launcherId := none, cwd := "/w",
    hostname := "local", createdAt := 0, lastActivityAt := 0,
    connections := [], outputBuffer := [],
    tmuxSession := some "claude-s1", warning := none }

/-- A manager state owning just `idlePty`. -/
def idleSt : PtyManagerState :=
  { ptys := [("pty-1", idlePty)], sessionToPty := [("s1", "pty-1")],
    launcherToPty := [], tmuxSessions := ["claude-s1"] }

/-- C6 witness: the theorem applied to a PTY idle for just over two
hours. -/
theorem claim_C6_witness :
    "pty-1" ∉ mapKeys (checkIdleTimeouts idleSt 7200001).1.ptys ∧
    PtyAction.killProcess "pty-1" ∈ (checkIdleTimeouts idleSt 7200001).2 :=
  ⟨(claim_C6_idle_reclamation idleSt 7200001 "pty-1" idlePty (by decide) (by decide)
      (by decide)).1,
   (claim_C6_idle_reclamation idleSt 7200001 "pty-1" idlePty (by decide) (by decide)
      (by decide)).2.1⟩

/-- C7: killing a managed PTY terminates only the attached PTY process
and removes the `ptyId` and `sessionId` map entries; the multiplexer
sessions are never killed or renamed (no tmux action is emitted, and the
ambient tmux session set is untouched); every open subscriber receives an
`exit` message before the process kill; and the other two kill sites —
shutdown (`stop`) and the idle sweep — likewise emit no tmux action and
leave the tmux sessions untouched. -/
theorem claim_C7_kill_frame (st : PtyManagerState) (ptyId : String) (pty : ManagedPty)
    (h : lookupKey st.ptys ptyId = some pty) :
    ((st.kill ptyId).1.ptys = eraseKey st.ptys ptyId) ∧
    ((st.kill ptyId).1.sessionToPty = eraseKey st.sessionToPty pty.sessionId) ∧
    ((st.kill ptyId).1.tmuxSessions = st.tmuxSessions) ∧
    ((st.kill ptyId).1.launcherToPty = st.launcherToPty) ∧
    (ptyId ∉ mapKeys (st.kill ptyId).1.ptys) ∧
    (pty.sessionId ∉ mapKeys (st.kill ptyId).1.sessionToPty) ∧
    (∀ a ∈ (st.kill ptyId).2.1, a.isTmuxOp = false) ∧
    (∀ name, PtyAction.killProcess name ∈ (st.kill ptyId).2.1 → name = ptyId) ∧
    (∃ msgs, (st.kill ptyId).2.1 =
        msgs ++ [PtyAction.killProcess ptyId, PtyAction.emitClosed ptyId pty.sessionId] ∧
      ∀ ws ∈ pty.connections, ws.isOpen = true →
        PtyAction.sendMsg ws.id (WsOutMsg.exitMsg none) ∈ msgs) ∧
    (st.stop.1.tmuxSessions = st.tmuxSessions ∧ ∀ a ∈ st.stop.2, a.isTmuxOp = false) ∧
    (∀ t : Nat, (checkIdleTimeouts st t).1.tmuxSessions = st.tmuxSessions ∧
      ∀ a ∈ (checkIdleTimeouts st t).2, a.isTmuxOp = false) := by
  refine ⟨?_, ?_, kill_tmuxSessions st ptyId, kill_launcherToPty st ptyId, ?_, ?_, ?_, ?_,
    ?_, ?_, ?_⟩
  · rw [kill_of_lookup_some st ptyId pty h]
  · rw [kill_of_lookup_some st ptyId pty h]
  · exact kill_self_not_mem st ptyId pty h
  · rw [kill_of_lookup_some st ptyId pty h]
    exact eraseKey_not_mem_keys _ _
  · exact kill_actions_no_tmux st ptyId
  · intro name hname
    rw [kill_of_lookup_some st ptyId pty h] at hname
    rcases List.mem_append.mp hname with hname | hname
    · obtain ⟨ws, _, hfw⟩ := List.mem_filterMap.mp hname
      by_cases hw : ws.isOpen = true
      · rw [if_pos hw] at hfw
        exact absurd hfw (by simp)
      · rw [if_neg hw] at hfw
        exact Option.noConfusion hfw
    · rcases List.mem_cons.mp hname with heq | hname
      · exact PtyAction.killProcess.inj heq
      · rcases List.mem_cons.mp hname with heq | hname
        · exact absurd heq (by simp)
        · simp at hname
  · refine ⟨pty.connections.filterMap (fun ws =>
      if ws.isOpen then some (PtyAction.sendMsg ws.id (WsOutMsg.exitMsg none)) else none),
      ?_, ?_⟩
    · rw [kill_of_lookup_some st ptyId pty h]
    · intro ws hws hopen
      exact List.mem_filterMap.mpr ⟨ws, hws, by rw [if_pos hopen]⟩
  · exact ⟨(stopLoop_tmux_frame (mapKeys st.ptys) (st, [])).1, fun a ha => by
      rcases (stopLoop_tmux_frame (mapKeys st.ptys) (st, [])).2 a ha with hin | hok
      · simp at hin
      · exact hok⟩
  · intro t
    exact ⟨(sweepLoop_tmux_frame t st.ptys (st, [])).1, fun a ha => by
      rcases (sweepLoop_tmux_frame t st.ptys (st, [])).2 a ha with hin | hok
      · simp at hin
      · exact hok⟩

/-- C7 witness: the theorem applied to a concrete one-PTY manager
state. -/
theorem claim_C7_witness :
    (idleSt.kill "pty-1").1.tmuxSessions = idleSt.tmuxSessions ∧
    (idleSt.kill "pty-1").1.ptys = eraseKey idleSt.ptys "pty-1" ∧
    "s1" ∉ mapKeys (idleSt.kill "pty-1").1.sessionToPty :=
  ⟨(claim_C7_kill_frame idleSt "pty-1" idlePty (by decide)).2.2.1,
   (claim_C7_kill_frame idleSt "pty-1" idlePty (by decide)).1,
   (claim_C7_kill_frame idleSt "pty-1" idlePty (by decide)).2.2.2.2.2.1⟩

/-! ### Launcher reconciliation lemmas -/

theorem not_mem_keys_setKey {β : Type} {m : List (String × β)} {key other : String} (v : β)
    (h : other ∉ mapKeys m) (hk : other ≠ key) : other ∉ mapKeys (setKey m key v) := by
  unfold setKey
  by_cases ha : m.any (fun p => p.1 == key) = true
  · rw [if_pos ha]
    intro hmem
    obtain ⟨w, hw⟩ := mem_mapKeys.mp hmem
    obtain ⟨p, hp, hfp⟩ := List.mem_map.mp hw
    by_cases hpk : p.1 = key
    · rw [if_pos hpk] at hfp
      injection hfp with h1 h2
      exact hk h1.symm
    · rw [if_neg hpk] at hfp
      subst hfp
      exact h (mem_mapKeys.mpr ⟨w, hp⟩)
  · rw [if_neg ha]
    intro hmem
    rw [mapKeys, List.map_append] at hmem
    rcases List.mem_append.mp hmem with hmem | hmem
    · exact h hmem
    · simp at hmem
      exact hk hmem

theorem waitLoop_found (listing : Nat → List String) (existingFiles : List String)
    (tempSessionId : String) (newPty : ManagedPty) (s2p : List (String × String))
    (connections : List Conn) (cwd : String) (k : Nat) (f : String) (rest : List String)
    (hnew : ((listing k).filter (fun g => strEndsWith g jsonlSuffix)).filter
        (fun g => ¬ existingFiles.contains g) = f :: rest) :
    waitLoop listing existingFiles tempSessionId newPty s2p connections cwd k =
      { sessionToPty := setKey (eraseKey s2p tempSessionId)
          (replaceFirst f jsonlSuffix) newPty.ptyId,
        pty := { newPty with sessionId := replaceFirst f jsonlSuffix, tmuxSession := some (getTmuxSessionName (replaceFirst f jsonlSuffix)) },
        actions :=
          (if getTmuxSessionName tempSessionId ≠
              getTmuxSessionName (replaceFirst f jsonlSuffix) then
            [PtyAction.tmuxRenameSession (getTmuxSessionName tempSessionId)
              (getTmuxSessionName (replaceFirst f jsonlSuffix))]
          else
            []) ++
          connections.filterMap (fun ws =>
            if ws.isOpen then
              some (PtyAction.sendMsg ws.id
                (WsOutMsg.launcherComplete (replaceFirst f jsonlSuffix) newPty.ptyId cwd))
            else
              none) } := by
  rw [waitLoop]
  simp only [hnew]

theorem waitLoop_timeout (listing : Nat → List String) (existingFiles : List String)
    (tempSessionId : String) (newPty : ManagedPty) (s2p : List (String × String))
    (connections : List Conn) (cwd : String) (k : Nat)
    (hempty : ((listing k).filter (fun g => strEndsWith g jsonlSuffix)).filter
        (fun g => ¬ existingFiles.contains g) = [])
    (hover : maxWaitMs < (k + 1) * pollIntervalMs) :
    waitLoop listing existingFiles tempSessionId newPty s2p connections cwd k =
      { sessionToPty := s2p,
        pty := newPty,
        actions := connections.filterMap (fun ws =>
          if ws.isOpen then
            some (PtyAction.sendMsg ws.id
              (WsOutMsg.launcherComplete newPty.sessionId newPty.ptyId cwd))
          else
            none) } := by
  rw [waitLoop]
  simp only [hempty]
  rw [if_pos hover]

theorem waitLoop_skip (listing : Nat → List String) (existingFiles : List String)
    (tempSessionId : String) (newPty : ManagedPty) (s2p : List (String × String))
    (connections : List Conn) (cwd : String) (k : Nat)
    (hempty : ((listing k).filter (fun g => strEndsWith g jsonlSuffix)).filter
        (fun g => ¬ existingFiles.contains g) = [])
    (hle : ¬ maxWaitMs < (k + 1) * pollIntervalMs) :
    waitLoop listing existingFiles tempSessionId newPty s2p connections cwd k =
      waitLoop listing existingFiles tempSessionId newPty s2p connections cwd (k + 1) := by
  conv_lhs => rw [waitLoop]
  simp only [hempty]
  rw [if_neg hle]

theorem waitLoop_eq_of_empty_below (listing : Nat → List String) (existingFiles : List String)
    (tempSessionId : String) (newPty : ManagedPty) (s2p : List (String × String))
    (connections : List Conn) (cwd : String) :
    ∀ (n j k : Nat), j + n = k → k ≤ maxWaitMs / pollIntervalMs →
      (∀ i, j ≤ i → i < k → newFilesAt listing existingFiles i = []) →
      waitLoop listing existingFiles tempSessionId newPty s2p connections cwd j =
        waitLoop listing existingFiles tempSessionId newPty s2p connections cwd k := by
  intro n
  induction n with
  | zero =>
    intro j k h _ _
    rw [show j = k by omega]
  | succ n ih =>
    intro j k h hk hempty
    have hskip := waitLoop_skip listing existingFiles tempSessionId newPty s2p connections
      cwd j (hempty j le_rfl (by omega)) ?_
    · rw [hskip]
      exact ih (j + 1) k (by omega) hk (fun i hi1 hi2 => hempty i (by omega) hi2)
    · rw [maxWaitMs, pollIntervalMs] at hk ⊢
      omega

/-! ### Claim theorem: launcher reconciliation -/

/-- C3: in the launcher flow, if a poll of the project directory (polls
run every 500 ms; the loop gives up only once more than 10 s have
elapsed) observes a log stem that was not in the baseline snapshot, the
multiplexer session is renamed to the name derived from the discovered
session id, the PTY's sessionId and the sessionId-to-ptyId map are
swapped to the real id, and every open subscriber receives
`launcher_complete` carrying the real id; if the window elapses with no
new stem at any poll, every open subscriber receives `launcher_complete`
carrying the placeholder id and the state is unchanged. -/
theorem claim_C3_launcher_reconciliation
    (baseline : List String) (listing : Nat → List String) (tempSessionId : String)
    (newPty : ManagedPty) (s2p : List (String × String)) (connections : List Conn)
    (cwd : String) (htemp : newPty.sessionId = tempSessionId) :
    (∀ (k : Nat) (f : String) (rest : List String),
      k ≤ maxWaitMs / pollIntervalMs →
      (∀ j, j < k →
        newFilesAt listing (baseline.filter (fun g => strEndsWith g jsonlSuffix)) j = []) →
      newFilesAt listing (baseline.filter (fun g => strEndsWith g jsonlSuffix)) k = f :: rest →
      replaceFirst f jsonlSuffix ≠ tempSessionId →
      (waitForClaudeSession baseline listing tempSessionId newPty s2p connections
          cwd).pty.sessionId = replaceFirst f jsonlSuffix ∧
      (waitForClaudeSession baseline listing tempSessionId newPty s2p connections
          cwd).pty.tmuxSession = some (getTmuxSessionName (replaceFirst f jsonlSuffix)) ∧
      lookupKey (waitForClaudeSession baseline listing tempSessionId newPty s2p connections
          cwd).sessionToPty (replaceFirst f jsonlSuffix) = some newPty.ptyId ∧
      tempSessionId ∉ mapKeys (waitForClaudeSession baseline listing tempSessionId newPty
          s2p connections cwd).sessionToPty ∧
      (getTmuxSessionName tempSessionId ≠ getTmuxSessionName (replaceFirst f jsonlSuffix) →
        PtyAction.tmuxRenameSession (getTmuxSessionName tempSessionId)
            (getTmuxSessionName (replaceFirst f jsonlSuffix)) ∈
          (waitForClaudeSession baseline listing tempSessionId newPty s2p connections
            cwd).actions) ∧
      (∀ ws ∈ connections, ws.isOpen = true →
        PtyAction.sendMsg ws.id
            (WsOutMsg.launcherComplete (replaceFirst f jsonlSuffix) newPty.ptyId cwd) ∈
          (waitForClaudeSession baseline listing tempSessionId newPty s2p connections
            cwd).actions)) ∧
    ((∀ j, j ≤ maxWaitMs / pollIntervalMs →
        newFilesAt listing (baseline.filter (fun g => strEndsWith g jsonlSuffix)) j = []) →
      (waitForClaudeSession baseline listing tempSessionId newPty s2p connections
          cwd).pty = newPty ∧
      (waitForClaudeSession baseline listing tempSessionId newPty s2p connections
          cwd).sessionToPty = s2p ∧
      (∀ ws ∈ connections, ws.isOpen = true →
        PtyAction.sendMsg ws.id
            (WsOutMsg.launcherComplete tempSessionId newPty.ptyId cwd) ∈
          (waitForClaudeSession baseline listing tempSessionId newPty s2p connections
            cwd).actions)) := by
  constructor
  · intro k f rest hk hbelow hfound hne
    have hreach := waitLoop_eq_of_empty_below listing
      (baseline.filter (fun g => strEndsWith g jsonlSuffix)) tempSessionId newPty s2p
      connections cwd k 0 k (by omega) hk (fun i _ hi2 => hbelow i hi2)
    have hfinal := waitLoop_found listing
      (baseline.filter (fun g => strEndsWith g jsonlSuffix)) tempSessionId newPty s2p
      connections cwd k f rest hfound
    have houtcome : waitForClaudeSession baseline listing tempSessionId newPty s2p
        connections cwd =
        waitLoop listing (baseline.filter (fun g => strEndsWith g jsonlSuffix))
          tempSessionId newPty s2p connections cwd k := by
      rw [waitForClaudeSession]
      exact hreach
    rw [houtcome, hfinal]
    refine ⟨rfl, rfl, lookupKey_setKey_self _ _ _, ?_, ?_, ?_⟩
    · exact not_mem_keys_setKey _ (eraseKey_not_mem_keys s2p tempSessionId)
        (fun he => hne he.symm)
    · intro hdiff
      rw [if_pos hdiff]
      exact List.mem_append.mpr (Or.inl (List.mem_cons_self _ _))
    · intro ws hws hopen
      exact List.mem_append.mpr (Or.inr
        (List.mem_filterMap.mpr ⟨ws, hws, by rw [if_pos hopen]⟩))
  · intro hall
    have hreach := waitLoop_eq_of_empty_below listing
      (baseline.filter (fun g => strEndsWith g jsonlSuffix)) tempSessionId newPty s2p
      connections cwd (maxWaitMs / pollIntervalMs) 0 (maxWaitMs / pollIntervalMs)
      (by omega) le_rfl (fun i _ hi2 => hall i (by omega))
    have hfinal := waitLoop_timeout listing
      (baseline.filter (fun g => strEndsWith g jsonlSuffix)) tempSessionId newPty s2p
      connections cwd (maxWaitMs / pollIntervalMs) (hall _ le_rfl) ?_
    · have houtcome : waitForClaudeSession baseline listing tempSessionId newPty s2p
          connections cwd =
          waitLoop listing (baseline.filter (fun g => strEndsWith g jsonlSuffix))
            tempSessionId newPty s2p connections cwd (maxWaitMs / pollIntervalMs) := by
        rw [waitForClaudeSession]
        exact hreach
      rw [houtcome, hfinal]
      refine ⟨rfl, rfl, ?_⟩
      intro ws hws hopen
      rw [← htemp]
      exact List.mem_filterMap.mpr ⟨ws, hws, by rw [if_pos hopen]⟩
    · rw [maxWaitMs, pollIntervalMs]
      omega

/-- A launcher-created PTY whose session id is still the placeholder. -/
def launcherPty : ManagedPty :=
  { ptyId := "pty-9", sessionId := "tmp-1", launcherId := some "l1", cwd := "/w",
    hostname := "local", createdAt := 0, lastActivityAt := 0,
    connections := [], outputBuffer := [],
    tmuxSession := some "launcher-l1", warning := none }

/-- C3 witness: a new stem `ab.jsonl` appears at the first poll; the
theorem's success branch applies at a concrete launcher state. -/
theorem claim_C3_witness :
    (waitForClaudeSession [] (fun j => if j = 0 then ["ab.jsonl"] else [])
        "tmp-1" launcherPty [] [] "/w").pty.sessionId =
      replaceFirst "ab.jsonl" jsonlSuffix ∧
    "tmp-1" ∉ mapKeys
      (waitForClaudeSession [] (fun j => if j = 0 then ["ab.jsonl"] else [])
        "tmp-1" launcherPty [] [] "/w").sessionToPty := by
  have happ := (claim_C3_launcher_reconciliation []
    (fun j => if j = 0 then ["ab.jsonl"] else []) "tmp-1" launcherPty [] [] "/w"
    rfl).1 0 "ab.jsonl" [] (Nat.zero_le _)
    (fun j hj => absurd hj (Nat.not_lt_zero j)) (by decide) (by decide)
  exact ⟨happ.1, happ.2.2.2.1⟩

/-! ### Registry event lemmas -/

/-- Whether an event is a `created` event. -/
def isCreatedEvent : SessionEvent → Bool
  | .created _ => true
  | _ => false

/-- Whether an event is a `deleted` event for the given session id. -/
def isDeletedEventFor (sessionId : String) : SessionEvent → Bool
  | .deleted s => s.sessionId == sessionId
  | _ => false

/-- How many `deleted` events for the given session id a list holds. -/
def countDeletedFor (sessionId : String) (events : List SessionEvent) : Nat :=
  (events.filter (isDeletedEventFor sessionId)).length

/-- Keys of the registry agree with the stored sessions' ids. -/
def KeysMatch (m : Registry) : Prop :=
  ∀ p ∈ m, p.2.sessionId = p.1

theorem countDeletedFor_append (sid : String) (evs1 evs2 : List SessionEvent) :
    countDeletedFor sid (evs1 ++ evs2) =
      countDeletedFor sid evs1 + countDeletedFor sid evs2 := by
  unfold countDeletedFor
  rw [List.filter_append, List.length_append]

theorem countDeletedFor_deleted (sid : String) (s : SessionState) :
    countDeletedFor sid [SessionEvent.deleted s] = if s.sessionId = sid then 1 else 0 := by
  unfold countDeletedFor
  by_cases h : s.sessionId = sid
  · rw [if_pos h]
    simp [isDeletedEventFor, h]
  · rw [if_neg h]
    simp [isDeletedEventFor, h]

theorem countDeletedFor_created (sid : String) (s : SessionState) :
    countDeletedFor sid [SessionEvent.created s] = 0 := by
  simp [countDeletedFor, isDeletedEventFor]

theorem mem_keys_eraseKey_iff {β : Type} {m : List (String × β)} {k key : String}
    (h : k ≠ key) : k ∈ mapKeys (eraseKey m key) ↔ k ∈ mapKeys m := by
  constructor
  · intro hm
    obtain ⟨v, hv⟩ := mem_mapKeys.mp hm
    exact mem_mapKeys.mpr ⟨v, eraseKey_subset _ _ _ hv⟩
  · intro hm
    obtain ⟨v, hv⟩ := mem_mapKeys.mp hm
    exact mem_mapKeys.mpr ⟨v, mem_eraseKey_of_ne hv h⟩

theorem mem_eq_of_keys_nodup {β : Type} {m : List (String × β)} {k : String} {v v' : β}
    (h1 : (k, v) ∈ m) (h2 : (k, v') ∈ m) (hnd : (mapKeys m).Nodup) : v = v' := by
  have e1 := mem_lookupKey h1 hnd
  have e2 := mem_lookupKey h2 hnd
  rw [e1] at e2
  exact Option.some_inj.mp e2

theorem removeLoop_subset :
    ∀ (ids : List String) (m : Registry) (evs : List SessionEvent) (p : String × SessionState),
      p ∈ (removeLoop ids m evs).1 → p ∈ m := by
  intro ids
  induction ids with
  | nil =>
    intro m evs p hp
    exact hp
  | cons a rest ih =>
    intro m evs p hp
    rw [removeLoop] at hp
    cases hl : lookupKey m a with
    | none =>
      rw [hl] at hp
      exact ih m evs p hp
    | some t =>
      rw [hl] at hp
      exact eraseKey_subset m a p (ih _ _ p hp)

theorem removeLoop_not_mem_keys :
    ∀ (ids : List String) (m : Registry) (evs : List SessionEvent) (sid : String),
      sid ∈ ids → sid ∉ mapKeys (removeLoop ids m evs).1 := by
  intro ids
  induction ids with
  | nil =>
    intro m evs sid h
    simp at h
  | cons a rest ih =>
    intro m evs sid hin
    rw [removeLoop]
    by_cases hsa : a = sid
    · subst hsa
      cases hl : lookupKey m a with
      | none =>
        intro hmem
        obtain ⟨v, hv⟩ := mem_mapKeys.mp hmem
        exact (lookupKey_eq_none_iff.mp hl)
          (mem_mapKeys.mpr ⟨v, removeLoop_subset rest m evs (a, v) hv⟩)
      | some t =>
        intro hmem
        obtain ⟨v, hv⟩ := mem_mapKeys.mp hmem
        exact eraseKey_not_mem_keys m a
          (mem_mapKeys.mpr ⟨v, removeLoop_subset rest (eraseKey m a) _ (a, v) hv⟩)
    · have hrest : sid ∈ rest := by
        rcases List.mem_cons.mp hin with heq | hrest
        · exact absurd heq.symm hsa
        · exact hrest
      cases hl : lookupKey m a with
      | none => exact ih m evs sid hrest
      | some t => exact ih (eraseKey m a) _ sid hrest

theorem removeLoop_kept :
    ∀ (ids : List String) (m : Registry) (evs : List SessionEvent) (p : String × SessionState),
      p ∈ m → p.1 ∉ ids → p ∈ (removeLoop ids m evs).1 := by
  intro ids
  induction ids with
  | nil =>
    intro m evs p hp _
    exact hp
  | cons a rest ih =>
    intro m evs p hp hnin
    have hpa : p.1 ≠ a := fun he => hnin (he ▸ List.mem_cons_self a rest)
    have hrest : p.1 ∉ rest := fun hr => hnin (List.mem_cons_of_mem a hr)
    rw [removeLoop]
    cases hl : lookupKey m a with
    | none => exact ih m evs p hp hrest
    | some t => exact ih (eraseKey m a) _ p (mem_eraseKey_of_ne hp hpa) hrest

theorem removeLoop_events_mono :
    ∀ (ids : List String) (m : Registry) (evs : List SessionEvent) (e : SessionEvent),
      e ∈ evs → e ∈ (removeLoop ids m evs).2 := by
  intro ids
  induction ids with
  | nil =>
    intro m evs e he
    exact he
  | cons a rest ih =>
    intro m evs e he
    rw [removeLoop]
    cases hl : lookupKey m a with
    | none => exact ih m evs e he
    | some t => exact ih (eraseKey m a) _ e (List.mem_append.mpr (Or.inl he))

theorem removeLoop_events_shape :
    ∀ (ids : List String) (m : Registry) (evs : List SessionEvent) (e : SessionEvent),
      e ∈ (removeLoop ids m evs).2 → e ∈ evs ∨ ∃ s, e = SessionEvent.deleted s := by
  intro ids
  induction ids with
  | nil =>
    intro m evs e he
    exact Or.inl he
  | cons a rest ih =>
    intro m evs e he
    rw [removeLoop] at he
    cases hl : lookupKey m a with
    | none =>
      rw [hl] at he
      exact ih m evs e he
    | some t =>
      rw [hl] at he
      rcases ih _ _ e he with hin | hdel
      · rcases List.mem_append.mp hin with hin | hin
        · exact Or.inl hin
        · rcases List.mem_cons.mp hin with rfl | hin
          · exact Or.inr ⟨t, rfl⟩
          · simp at hin
      · exact Or.inr hdel

theorem removeLoop_deleted_mem (s : SessionState) :
    ∀ (ids : List String) (m : Registry) (evs : List SessionEvent) (sid : String),
      sid ∈ ids → (sid, s) ∈ m → (mapKeys m).Nodup →
      SessionEvent.deleted s ∈ (removeLoop ids m evs).2 := by
  intro ids
  induction ids with
  | nil =>
    intro m evs sid h
    simp at h
  | cons a rest ih =>
    intro m evs sid hin hmem hnd
    rw [removeLoop]
    by_cases hsa : a = sid
    · subst hsa
      rw [mem_lookupKey hmem hnd]
      exact removeLoop_events_mono rest _ _ _
        (List.mem_append.mpr (Or.inr (List.mem_cons_self _ _)))
    · have hrest : sid ∈ rest := by
        rcases List.mem_cons.mp hin with heq | hrest
        · exact absurd heq.symm hsa
        · exact hrest
      cases hl : lookupKey m a with
      | none => exact ih m evs sid hrest hmem hnd
      | some t =>
        exact ih (eraseKey m a) _ sid hrest
          (mem_eraseKey_of_ne hmem (fun he => hsa (by simpa using he.symm)))
          (eraseKey_keys_nodup a hnd)

theorem removeLoop_count (sid : String) :
    ∀ (ids : List String) (m : Registry) (evs : List SessionEvent),
      ids.Nodup → KeysMatch m → (mapKeys m).Nodup →
      countDeletedFor sid (removeLoop ids m evs).2 =
        countDeletedFor sid evs +
          (if sid ∈ ids ∧ sid ∈ mapKeys m then 1 else 0) := by
  intro ids
  induction ids with
  | nil =>
    intro m evs _ _ _
    simp [removeLoop]
  | cons a rest ih =>
    intro m evs hnd hkm hmnd
    rw [List.nodup_cons] at hnd
    rw [removeLoop]
    cases hl : lookupKey m a with
    | none =>
      rw [ih m evs hnd.2 hkm hmnd]
      have hna : a ∉ mapKeys m := lookupKey_eq_none_iff.mp hl
      by_cases hsid : sid ∈ rest ∧ sid ∈ mapKeys m
      · rw [if_pos hsid, if_pos ⟨List.mem_cons_of_mem _ hsid.1, hsid.2⟩]
      · rw [if_neg hsid, if_neg ?_]
        rintro ⟨hin, hkey⟩
        rcases List.mem_cons.mp hin with rfl | hin
        · exact hna hkey
        · exact hsid ⟨hin, hkey⟩
    | some s =>
      have hamem : a ∈ mapKeys m := mem_mapKeys.mpr ⟨s, lookupKey_mem hl⟩
      have hskm : s.sessionId = a := hkm _ (lookupKey_mem hl)
      have hkm' : KeysMatch (eraseKey m a) := fun p hp => hkm p (eraseKey_subset _ _ _ hp)
      rw [ih (eraseKey m a) (evs ++ [SessionEvent.deleted s]) hnd.2 hkm'
        (eraseKey_keys_nodup a hmnd)]
      rw [countDeletedFor_append, countDeletedFor_deleted]
      by_cases hsa : sid = a
      · subst hsa
        rw [if_pos hskm]
        rw [if_neg (fun hc => eraseKey_not_mem_keys m sid hc.2)]
        rw [if_pos ⟨List.mem_cons_self _ _, hamem⟩]
      · rw [if_neg (fun hc => hsa (hskm ▸ hc).symm)]
        by_cases hsid : sid ∈ rest ∧ sid ∈ mapKeys m
        · rw [if_pos ⟨hsid.1, (mem_keys_eraseKey_iff hsa).mpr hsid.2⟩,
            if_pos ⟨List.mem_cons_of_mem _ hsid.1, hsid.2⟩]
        · have h1 : ¬ (sid ∈ rest ∧ sid ∈ mapKeys (eraseKey m a)) := by
            rintro ⟨hin, hkey⟩
            exact hsid ⟨hin, (mem_keys_eraseKey_iff hsa).mp hkey⟩
          have h2 : ¬ (sid ∈ a :: rest ∧ sid ∈ mapKeys m) := by
            rintro ⟨hin, hkey⟩
            rcases List.mem_cons.mp hin with heq | hin
            · exact hsa heq
            · exact hsid ⟨hin, hkey⟩
          rw [if_neg h1, if_neg h2]

/-! ### handleFile characterization -/

/-- The session record `handleFile` builds for a previously unknown
session whose metadata extraction yields `md`. -/
def newSessionOf (env : WatcherEnv) (filepath : String) (md : SessionMetadata) :
    SessionState :=
  { sessionId := env.extractSessionId filepath,
    hostname := env.getHostnameForPath filepath,
    filepath := filepath,
    encodedDir := env.extractEncodedDir filepath,
    cwd := md.cwd,
    gitBranch := jsOrString (env.getGitInfoCached md.cwd).branch md.gitBranch,
    originalPrompt := md.originalPrompt,
    startedAt := md.startedAt,
    status := env.deriveStatus (env.tailJSONL filepath 0).1,
    entries := (env.tailJSONL filepath 0).1,
    bytePosition := (env.tailJSONL filepath 0).2,
    gitRepoUrl := (env.getGitInfoCached md.cwd).repoUrl,
    gitRepoId := (env.getGitInfoCached md.cwd).repoId }

/-- The session record `handleFile` builds when updating the known
session `s`. -/
def updSessionOf (env : WatcherEnv) (filepath : String) (s : SessionState) :
    SessionState :=
  { sessionId := env.extractSessionId filepath,
    hostname := env.getHostnameForPath filepath,
    filepath := filepath,
    encodedDir := env.extractEncodedDir filepath,
    cwd := s.cwd,
    gitBranch := jsOrString s.gitBranch s.gitBranch,
    originalPrompt :=
      if env.extractLatestPrompt (s.entries ++ (env.tailJSONL filepath s.bytePosition).1)
          ≠ emptyStr then
        env.extractLatestPrompt (s.entries ++ (env.tailJSONL filepath s.bytePosition).1)
      else
        s.originalPrompt,
    startedAt := s.startedAt,
    status := env.deriveStatus (s.entries ++ (env.tailJSONL filepath s.bytePosition).1),
    entries := s.entries ++ (env.tailJSONL filepath s.bytePosition).1,
    bytePosition := (env.tailJSONL filepath s.bytePosition).2,
    gitRepoUrl := s.gitRepoUrl,
    gitRepoId := s.gitRepoId }

theorem handleFile_new (env : WatcherEnv) (sessions : Registry) (filepath : String)
    (hnew : lookupKey sessions (env.extractSessionId filepath) = none)
    (md : SessionMetadata)
    (hmd : env.extractMetadata (env.tailJSONL filepath 0).1 = some md) :
    handleFile env sessions filepath =
      ((removeSupersededSessions
          (setKey sessions (env.extractSessionId filepath) (newSessionOf env filepath md))
          (newSessionOf env filepath md)).1,
       (removeSupersededSessions
          (setKey sessions (env.extractSessionId filepath) (newSessionOf env filepath md))
          (newSessionOf env filepath md)).2
         ++ [SessionEvent.created (newSessionOf env filepath md)]) := by
  unfold handleFile
  dsimp only
  rw [hnew]
  simp only [Option.map_none', Option.getD_none, Option.isSome_none, Bool.and_false,
    Bool.false_eq_true, if_false]
  rw [hmd]
  rfl

theorem handleFile_new_nometa (env : WatcherEnv) (sessions : Registry) (filepath : String)
    (hnew : lookupKey sessions (env.extractSessionId filepath) = none)
    (hmd : env.extractMetadata (env.tailJSONL filepath 0).1 = none) :
    handleFile env sessions filepath = (sessions, []) := by
  unfold handleFile
  dsimp only
  rw [hnew]
  simp only [Option.map_none', Option.getD_none, Option.isSome_none, Bool.and_false,
    Bool.false_eq_true, if_false]
  rw [hmd]

theorem handleFile_existing_empty (env : WatcherEnv) (sessions : Registry)
    (filepath : String) (s : SessionState)
    (hex : lookupKey sessions (env.extractSessionId filepath) = some s)
    (hempty : (env.tailJSONL filepath s.bytePosition).1 = []) :
    handleFile env sessions filepath = (sessions, []) := by
  unfold handleFile
  dsimp only
  rw [hex]
  simp only [Option.map_some', Option.getD_some]
  have hcond : ((env.tailJSONL filepath s.bytePosition).1.isEmpty && (some s).isSome)
      = true := by
    rw [hempty]
    rfl
  rw [if_pos hcond]

theorem handleFile_existing_batch (env : WatcherEnv) (sessions : Registry)
    (filepath : String) (s : SessionState)
    (hex : lookupKey sessions (env.extractSessionId filepath) = some s)
    (hne : (env.tailJSONL filepath s.bytePosition).1 ≠ []) :
    handleFile env sessions filepath =
      (if (statusChanged (some s.status)
              (env.deriveStatus (s.entries ++ (env.tailJSONL filepath s.bytePosition).1)) ||
            decide (s.status.messageCount <
              (env.deriveStatus
                (s.entries ++ (env.tailJSONL filepath s.bytePosition).1)).messageCount))
           = true then
        (setKey sessions (env.extractSessionId filepath) (updSessionOf env filepath s),
         [SessionEvent.updated (updSessionOf env filepath s) (some s.status)])
      else
        (setKey sessions (env.extractSessionId filepath) (updSessionOf env filepath s),
         [])) := by
  have hie : (env.tailJSONL filepath s.bytePosition).1.isEmpty = false := by
    rw [Bool.eq_false_iff]
    intro hcontra
    exact hne (List.isEmpty_iff.mp hcontra)
  unfold handleFile
  dsimp only
  rw [hex]
  simp only [Option.map_some', Option.getD_some]
  rw [hie]
  simp only [Bool.false_and, Bool.false_eq_true, if_false, Option.isNone_some,
    Bool.false_eq_true]
  rfl

/-! ### Claim theorems: registry event kinds and supersession -/

theorem removeSupersededSessions_eq (m : Registry) (s2 : SessionState) :
    removeSupersededSessions m s2 =
      removeLoop ((m.filter (fun q => supersededBy s2 q.1 q.2)).map Prod.fst) m [] := rfl

theorem removeSupersededSessions_spec (m : Registry) (s2 : SessionState)
    (hnd : (mapKeys m).Nodup) (hkm : KeysMatch m) :
    ∀ p ∈ m,
      (p.1 ≠ s2.sessionId ∧ p.2.hostname = s2.hostname ∧ p.2.cwd = s2.cwd ∧
          p.2.status.status = SessionStatus.idle →
        p.1 ∉ mapKeys (removeSupersededSessions m s2).1 ∧
        SessionEvent.deleted p.2 ∈ (removeSupersededSessions m s2).2 ∧
        countDeletedFor p.1 (removeSupersededSessions m s2).2 = 1) ∧
      (¬ (p.1 ≠ s2.sessionId ∧ p.2.hostname = s2.hostname ∧ p.2.cwd = s2.cwd ∧
          p.2.status.status = SessionStatus.idle) →
        p ∈ (removeSupersededSessions m s2).1 ∧
        countDeletedFor p.1 (removeSupersededSessions m s2).2 = 0) := by
  intro p hp
  have hp' : (p.1, p.2) ∈ m := by simpa using hp
  have hidsnd : ((m.filter (fun q => supersededBy s2 q.1 q.2)).map Prod.fst).Nodup :=
    hnd.sublist ((List.filter_sublist m).map Prod.fst)
  constructor
  · rintro ⟨hne, hh, hc, hi⟩
    have hpred : supersededBy s2 p.1 p.2 = true := by
      unfold supersededBy
      rw [decide_eq_true_eq]
      exact ⟨hne, hh, hc, hi⟩
    have hin : p.1 ∈ (m.filter (fun q => supersededBy s2 q.1 q.2)).map Prod.fst :=
      List.mem_map_of_mem Prod.fst (List.mem_filter.mpr ⟨hp, hpred⟩)
    rw [removeSupersededSessions_eq]
    refine ⟨removeLoop_not_mem_keys _ m [] p.1 hin, ?_, ?_⟩
    · exact removeLoop_deleted_mem p.2 _ m [] p.1 hin hp' hnd
    · rw [removeLoop_count p.1 _ m [] hidsnd hkm hnd]
      rw [if_pos ⟨hin, mem_mapKeys.mpr ⟨p.2, hp'⟩⟩]
      simp [countDeletedFor]
  · intro hncond
    have hnotin : p.1 ∉ (m.filter (fun q => supersededBy s2 q.1 q.2)).map Prod.fst := by
      intro hin
      obtain ⟨⟨qk, qv⟩, hq, hqe⟩ := List.mem_map.mp hin
      dsimp at hqe
      subst hqe
      have hqm := List.mem_filter.mp hq
      have hqv : qv = p.2 := mem_eq_of_keys_nodup hqm.1 hp' hnd
      have hpred := hqm.2
      rw [hqv] at hpred
      unfold supersededBy at hpred
      rw [decide_eq_true_eq] at hpred
      exact hncond hpred
    rw [removeSupersededSessions_eq]
    refine ⟨removeLoop_kept _ m [] p hp hnotin, ?_⟩
    rw [removeLoop_count p.1 _ m [] hidsnd hkm hnd]
    rw [if_neg (fun hc => hnotin hc.1)]
    simp [countDeletedFor]

/-- C2: for a file whose session is already in the registry the handler
never emits `created` and emits `updated` exactly when the derived status
tuple changed or the message count strictly increased (a batch with no
new entries, or one changing neither, emits nothing); for a file whose
session is unknown and whose metadata is complete, exactly one `created`
event is emitted; with incomplete metadata nothing is emitted. -/
theorem claim_C2_event_kind (env : WatcherEnv) (sessions : Registry) (filepath : String) :
    (∀ s, lookupKey sessions (env.extractSessionId filepath) = some s →
      (env.tailJSONL filepath s.bytePosition).1 = [] →
      handleFile env sessions filepath = (sessions, [])) ∧
    (∀ s, lookupKey sessions (env.extractSessionId filepath) = some s →
      (env.tailJSONL filepath s.bytePosition).1 ≠ [] →
      (∀ sess, SessionEvent.created sess ∉ (handleFile env sessions filepath).2) ∧
      ((∃ sess prev, SessionEvent.updated sess prev ∈ (handleFile env sessions filepath).2) ↔
        (statusChanged (some s.status)
            (env.deriveStatus (s.entries ++ (env.tailJSONL filepath s.bytePosition).1))
              = true ∨
          s.status.messageCount <
            (env.deriveStatus
              (s.entries ++ (env.tailJSONL filepath s.bytePosition).1)).messageCount)) ∧
      (¬ (statusChanged (some s.status)
            (env.deriveStatus (s.entries ++ (env.tailJSONL filepath s.bytePosition).1))
              = true ∨
          s.status.messageCount <
            (env.deriveStatus
              (s.entries ++ (env.tailJSONL filepath s.bytePosition).1)).messageCount) →
        (handleFile env sessions filepath).2 = [])) ∧
    (∀ md, lookupKey sessions (env.extractSessionId filepath) = none →
      env.extractMetadata (env.tailJSONL filepath 0).1 = some md →
      ((handleFile env sessions filepath).2.filter isCreatedEvent).length = 1) ∧
    (lookupKey sessions (env.extractSessionId filepath) = none →
      env.extractMetadata (env.tailJSONL filepath 0).1 = none →
      handleFile env sessions filepath = (sessions, [])) := by
  refine ⟨?_, ?_, ?_, ?_⟩
  · intro s hex hempty
    exact handleFile_existing_empty env sessions filepath s hex hempty
  · intro s hex hne
    rw [handleFile_existing_batch env sessions filepath s hex hne]
    by_cases hb : (statusChanged (some s.status)
        (env.deriveStatus (s.entries ++ (env.tailJSONL filepath s.bytePosition).1)) ||
      decide (s.status.messageCount <
        (env.deriveStatus
          (s.entries ++ (env.tailJSONL filepath s.bytePosition).1)).messageCount)) = true
    · rw [if_pos hb]
      rw [Bool.or_eq_true, decide_eq_true_eq] at hb
      refine ⟨?_, ?_, ?_⟩
      · intro sess hmem
        rcases List.mem_cons.mp hmem with heq | h0
        · exact SessionEvent.noConfusion heq
        · simp at h0
      · constructor
        · intro _
          exact hb
        · intro _
          exact ⟨_, _, List.mem_cons_self _ _⟩
      · intro hncond
        exact absurd hb hncond
    · rw [if_neg hb]
      refine ⟨?_, ?_, ?_⟩
      · intro sess hmem
        simp at hmem
      · constructor
        · rintro ⟨sess, prev, hmem⟩
          simp at hmem
        · intro hcond
          exact absurd (by rw [Bool.or_eq_true, decide_eq_true_eq]; exact hcond) hb
      · intro _
        rfl
  · intro md hnew hmd
    rw [handleFile_new env sessions filepath hnew md hmd]
    rw [List.filter_append, List.length_append]
    have h1 : (removeSupersededSessions
        (setKey sessions (env.extractSessionId filepath) (newSessionOf env filepath md))
        (newSessionOf env filepath md)).2.filter isCreatedEvent = [] := by
      rw [List.filter_eq_nil_iff]
      intro e he
      rw [removeSupersededSessions_eq] at he
      rcases removeLoop_events_shape _ _ _ e he with h0 | ⟨t, rfl⟩
      · simp at h0
      · simp [isCreatedEvent]
    rw [h1]
    rfl
  · intro hnew hmd
    exact handleFile_new_nometa env sessions filepath hnew hmd

/-- C1: on a handled new-session event, every other registry entry on
the same host with the same cwd and idle status is removed from the
registry and gets exactly one `deleted` event, while entries differing in
host, cwd or with a non-idle status stay and get none; the `created`
event for the new session is emitted. -/
theorem claim_C1_supersession (env : WatcherEnv) (sessions : Registry) (filepath : String)
    (hnd : (mapKeys sessions).Nodup) (hkm : KeysMatch sessions)
    (hnew : lookupKey sessions (env.extractSessionId filepath) = none)
    (md : SessionMetadata)
    (hmd : env.extractMetadata (env.tailJSONL filepath 0).1 = some md) :
    ∃ s2, SessionEvent.created s2 ∈ (handleFile env sessions filepath).2 ∧
      s2.sessionId = env.extractSessionId filepath ∧
      s2.hostname = env.getHostnameForPath filepath ∧
      s2.cwd = md.cwd ∧
      ∀ p ∈ sessions,
        (p.2.hostname = s2.hostname ∧ p.2.cwd = s2.cwd ∧
            p.2.status.status = SessionStatus.idle →
          p.1 ∉ mapKeys (handleFile env sessions filepath).1 ∧
          SessionEvent.deleted p.2 ∈ (handleFile env sessions filepath).2 ∧
          countDeletedFor p.1 (handleFile env sessions filepath).2 = 1) ∧
        (¬ (p.2.hostname = s2.hostname ∧ p.2.cwd = s2.cwd ∧
            p.2.status.status = SessionStatus.idle) →
          p ∈ (handleFile env sessions filepath).1 ∧
          countDeletedFor p.1 (handleFile env sessions filepath).2 = 0) := by
  have hres := handleFile_new env sessions filepath hnew md hmd
  have hknotin : env.extractSessionId filepath ∉ mapKeys sessions :=
    lookupKey_eq_none_iff.mp hnew
  have hm1eq : setKey sessions (env.extractSessionId filepath) (newSessionOf env filepath md)
      = sessions ++ [(env.extractSessionId filepath, newSessionOf env filepath md)] :=
    setKey_eq_append _ hknotin
  rw [hm1eq] at hres
  have hkeys1 : mapKeys
      (sessions ++ [(env.extractSessionId filepath, newSessionOf env filepath md)]) =
      mapKeys sessions ++ [env.extractSessionId filepath] := by
    rw [mapKeys, List.map_append]
    rfl
  have hnd1 : (mapKeys
      (sessions ++ [(env.extractSessionId filepath, newSessionOf env filepath md)])).Nodup := by
    rw [hkeys1, List.nodup_append]
    refine ⟨hnd, List.nodup_singleton _, ?_⟩
    intro a ha hb
    rw [List.mem_singleton] at hb
    subst hb
    exact hknotin ha
  have hkm1 : KeysMatch
      (sessions ++ [(env.extractSessionId filepath, newSessionOf env filepath md)]) := by
    intro p hp
    rcases List.mem_append.mp hp with hp | hp
    · exact hkm p hp
    · rw [List.mem_singleton] at hp
      subst hp
      rfl
  refine ⟨newSessionOf env filepath md, ?_, rfl, rfl, rfl, ?_⟩
  · rw [hres]
    exact List.mem_append.mpr (Or.inr (List.mem_cons_self _ _))
  · intro p hp
    have hp1mem : p.1 ∈ mapKeys sessions := mem_mapKeys.mpr ⟨p.2, by simpa using hp⟩
    have hspec := removeSupersededSessions_spec
      (sessions ++ [(env.extractSessionId filepath, newSessionOf env filepath md)])
      (newSessionOf env filepath md) hnd1 hkm1 p (List.mem_append.mpr (Or.inl hp))
    constructor
    · rintro ⟨hh, hc, hi⟩
      have hne : p.1 ≠ (newSessionOf env filepath md).sessionId := by
        intro he
        apply hknotin
        have heq : p.1 = env.extractSessionId filepath := he
        rw [← heq]
        exact hp1mem
      have h := hspec.1 ⟨hne, hh, hc, hi⟩
      refine ⟨?_, ?_, ?_⟩
      · rw [hres]
        exact h.1
      · rw [hres]
        exact List.mem_append.mpr (Or.inl h.2.1)
      · rw [hres]
        rw [countDeletedFor_append, countDeletedFor_created]
        exact h.2.2
    · intro hncond
      have h := hspec.2 (fun hc => hncond ⟨hc.2.1, hc.2.2.1, hc.2.2.2⟩)
      refine ⟨?_, ?_⟩
      · rw [hres]
        exact h.1
      · rw [hres]
        rw [countDeletedFor_append, countDeletedFor_created]
        exact h.2

/-! ### Witness environment and registries for C1 and C2 -/

/-- Metadata the sample parser extracts for new sessions. -/
def sampleMd : SessionMetadata :=
  { sessionId := "n1", cwd := "/w", gitBranch := none,
    originalPrompt := "p", startedAt := "t" }

/-- A concrete environment for the watcher embedding: tailing any file
yields one opaque entry, ids come from the path, metadata extraction
succeeds on non-empty entry lists. -/
def sampleEnv : WatcherEnv :=
  { tailJSONL := fun _ _ => (["e1"], 5),
    extractSessionId := fun fp => fp,
    extractMetadata := fun entries => if entries.isEmpty then none else some sampleMd,
    extractLatestPrompt := fun _ => emptyStr,
    extractEncodedDir := fun _ => "enc",
    deriveStatus := fun entries =>
      { status := SessionStatus.working, hasPendingToolUse := false, pendingTool := none,
        messageCount := entries.length, lastActivityAt := 0 },
    getGitInfoCached := fun _ =>
      { repoUrl := none, repoId := none, branch := none, isGitRepo := false },
    getHostnameForPath := fun _ => "local" }

/-- An idle session in the same cwd on the same host, about to be
superseded. -/
def oldIdleSession : SessionState :=
  { sessionId := "o1", hostname := "local", filepath := "o1", encodedDir := "enc",
    cwd := "/w", gitBranch := none, originalPrompt := "q", startedAt := "t0",
    status := idleStatus, entries := [], bytePosition := 0,
    gitRepoUrl := none, gitRepoId := none }

/-- C1 witness: with one idle session in the same cwd in the registry,
handling a fresh file deletes it and keeps the created event. -/
theorem claim_C1_witness :
    SessionEvent.deleted oldIdleSession ∈
      (handleFile sampleEnv [("o1", oldIdleSession)] "n1").2 ∧
    "o1" ∉ mapKeys (handleFile sampleEnv [("o1", oldIdleSession)] "n1").1 := by
  obtain ⟨s2, hcr, hsid, hhost, hcwd, hall⟩ :=
    claim_C1_supersession sampleEnv [("o1", oldIdleSession)] "n1" (by decide)
      (by
        intro p hp
        rw [List.mem_singleton] at hp
        subst hp
        rfl)
      (by decide) sampleMd (by decide)
  have hp := (hall ("o1", oldIdleSession) (by decide)).1 ?_
  · exact ⟨hp.2.1, hp.1⟩
  · refine ⟨?_, ?_, by decide⟩
    · rw [hhost]
      decide
    · rw [hcwd]
      decide

/-- C2 witness: the theorem's new-session branch applied to the empty
registry — exactly one created event. -/
theorem claim_C2_witness :
    ((handleFile sampleEnv [] "n1").2.filter isCreatedEvent).length = 1 :=
  (claim_C2_event_kind sampleEnv [] "n1").2.2.1 sampleMd (by decide) (by decide)

end SessionMonitor
